import Mathlib

/-!
Shallow embedding of the vabna interpreter core (lexer tokens, Pratt parser,
tree-walking evaluator) and proofs about the frozen claims.

Source files embedded:
- src/evaluator/evaluator.go   (package evaluator: Eval and its helpers)
- src/unnamed/part_000         (package parser: Pratt parser)
- src/unnamed/part_001         (package evaluator: applyFunc variant with a GUI flag)

Packages of the repository that are not present under src/ (token, ast, object,
number, lexer, errs) are modelled from the specification; every definition
standing in for such missing code carries a doc comment starting with
"Modelled from the spec:".

Conventions of the embedding:
- Go interface values that may be nil are modelled with Option; the Go `nil`
  result of Eval is `none : Option Obj`.
- A Go panic (nil dereference, out-of-bounds slice) and fuel exhaustion are
  both modelled by the outermost `none` of an evaluation result; a `some`
  result is therefore a genuine Go return value reached without panicking.
- Go map iteration order over hash-literal pairs is made explicit through a
  `perm` parameter in the evaluation context.
- Go byte-indexed string slicing is modelled character-indexed in the
  evaluator's error formatting (they agree on ASCII data, which all concrete
  inputs in this file are); the dedicated byte-level model used for the
  error-line claims works on byte lists.
-/

namespace Vabna

/-! ## Tokens (Modelled from the spec, section 3: the token package is not under src/) -/

/-- Modelled from the spec: the closed enumeration of token kinds
(identifiers, literals, punctuation, operators, keywords, COMMENT, EOF,
ILLEGAL). -/
inductive TokenType where
  | IDENT | NUM | STRING
  | LPAREN | RPAREN | LBRACE | RBRACE | LS_BRACKET | RS_BRACKET
  | COMMA | COLON | SEMICOLON
  | PLUS | MINUS | MUL | DIV | EQ | EQEQ | NOT_EQ | LT | GT | LTE | GTE | EXC
  | LET | EKTI | FUNC | IF | TAHOLE | ELSE | END | WHILE
  | TRUE | FALSE | RETURN | SHOW | INCLUDE
  | COMMENT | EOF | ILLEGAL
deriving DecidableEq, Repr

/-- Modelled from the spec: a token is kind, literal, line number and column.
Line and column are Go ints (may be zero or negative for virtual tokens), so
they are modelled as Int. -/
structure Token where
  ttype : TokenType
  literal : String
  lineNo : Int
  column : Int
deriving DecidableEq, Repr

/-- The zero token (Go `token.Token{}`): used where the object package would
return a token it never stored. Its line number 0 marks it virtual. -/
def zeroTok : Token := ⟨TokenType.ILLEGAL, "", 0, 0⟩

/-! ## Arbitrary-precision numbers
(Modelled from the spec, sections 3 and 4.3: the number package is not under src/) -/

/-- Modelled from the spec: `ArbitraryNumber` is either an arbitrary-precision
integer (big.Int) or an arbitrary-precision float (big.Float); the float is
modelled as a rational. -/
inductive NumValue where
  | intV (v : Int)
  | fltV (v : Rat)
deriving DecidableEq, Repr

/-- Modelled from the spec: `number.Number` is a value plus an `IsInt` flag. -/
structure Number where
  value : NumValue
  isInt : Bool
deriving DecidableEq, Repr

/-- Read a NumValue as an Int, truncating a float toward zero
(Go big.Float conversion rounds toward zero). -/
def NumValue.truncInt : NumValue → Int
  | NumValue.intV v => v
  | NumValue.fltV q => Int.tdiv q.num q.den

/-- Read a NumValue as a rational (integer promotion for mixed arithmetic). -/
def NumValue.toRat : NumValue → Rat
  | NumValue.intV v => (v : Rat)
  | NumValue.fltV q => q

/-- Modelled from the spec: `number.GetAsInt` coerces a number to an integer;
the pair mirrors the Go (int64, noerr) result. With arbitrary precision the
coercion always succeeds. -/
def GetAsInt (n : NumValue) : Int × Bool := (n.truncInt, true)

/-- Modelled from the spec: `number.MakeNeg` negates a number. -/
def MakeNeg (n : Number) : Number :=
  match n.value with
  | NumValue.intV v => ⟨NumValue.intV (-v), n.isInt⟩
  | NumValue.fltV q => ⟨NumValue.fltV (-q), n.isInt⟩

/-- Modelled from the spec: decimal rendering of a number (big.Int prints in
decimal; the float rendering is a stand-in, no claim depends on it). -/
def NumValue.render : NumValue → String
  | NumValue.intV v => toString v
  | NumValue.fltV q => toString q.num ++ "/" ++ toString q.den

/-- Mirror of the Go triple returned by `number.NumberOperation`:
`val` (whose `Value` may be nil, hence Option), the comparison result `cval`,
and the `noerr` flag. -/
structure NumOpOut where
  val : Option Number
  cval : Bool
  noerr : Bool
deriving DecidableEq, Repr

/-- Modelled from the spec (section 4.3): both operands integer gives an
integer result with `/` truncating toward zero; any float operand promotes to
float; comparisons yield a boolean through `cval` with a nil `val`; division
by zero and unknown operators report failure through `noerr = false`. -/
def NumberOperation (op : String) (l r : Number) : NumOpOut :=
  if l.isInt && r.isInt then
    let a := l.value.truncInt
    let b := r.value.truncInt
    if op == "+" then ⟨some ⟨NumValue.intV (a + b), true⟩, false, true⟩
    else if op == "-" then ⟨some ⟨NumValue.intV (a - b), true⟩, false, true⟩
    else if op == "*" then ⟨some ⟨NumValue.intV (a * b), true⟩, false, true⟩
    else if op == "/" then
      if b = 0 then ⟨none, false, false⟩
      else ⟨some ⟨NumValue.intV (Int.tdiv a b), true⟩, false, true⟩
    else if op == "==" then ⟨none, a == b, true⟩
    else if op == "!=" then ⟨none, a != b, true⟩
    else if op == "<" then ⟨none, decide (a < b), true⟩
    else if op == ">" then ⟨none, decide (b < a), true⟩
    else if op == "<=" then ⟨none, decide (a ≤ b), true⟩
    else if op == ">=" then ⟨none, decide (b ≤ a), true⟩
    else ⟨none, false, false⟩
  else
    let a := l.value.toRat
    let b := r.value.toRat
    if op == "+" then ⟨some ⟨NumValue.fltV (a + b), false⟩, false, true⟩
    else if op == "-" then ⟨some ⟨NumValue.fltV (a - b), false⟩, false, true⟩
    else if op == "*" then ⟨some ⟨NumValue.fltV (a * b), false⟩, false, true⟩
    else if op == "/" then
      if b = 0 then ⟨none, false, false⟩
      else ⟨some ⟨NumValue.fltV (a / b), false⟩, false, true⟩
    else if op == "==" then ⟨none, a == b, true⟩
    else if op == "!=" then ⟨none, a != b, true⟩
    else if op == "<" then ⟨none, decide (a < b), true⟩
    else if op == ">" then ⟨none, decide (b < a), true⟩
    else if op == "<=" then ⟨none, decide (a ≤ b), true⟩
    else if op == ">=" then ⟨none, decide (b ≤ a), true⟩
    else ⟨none, false, false⟩

/-- Modelled from the spec (section 4.1): `number.IsFloat` holds when the
literal contains a dot. -/
def IsFloat (lit : String) : Bool := lit.toList.contains '.'

/-! ## AST (Modelled from the spec, section 3: the ast package is not under src/)

Child pointers that the parser can leave nil (`ast.Expr` interface values,
`*ast.BlockStmt` pointers) are modelled as Option. Slices that can only be
nil-or-filled (parameter lists, expression lists) are modelled as plain lists,
since Go treats a nil slice and an empty slice identically under len/range;
their ELEMENTS stay Option because `parseExpr` can return nil. A block is its
statement list (the token a BlockStmt carries is never read by Eval). -/

mutual
inductive Expr where
  | ident (tok : Token) (value : String)
  | numberLit (tok : Token) (value : Number) (isInt : Bool)
  | stringLit (tok : Token) (value : String)
  | boolLit (tok : Token) (value : Bool)
  | prefixE (tok : Token) (op : String) (right : Option Expr)
  | infixE (tok : Token) (op : String) (left : Option Expr) (right : Option Expr)
  | ifE (tok : Token) (cond : Option Expr) (trueBlock : Option (List Stmt))
        (elseBlock : Option (List Stmt))
  | whileE (tok : Token) (cond : Option Expr) (body : Option (List Stmt))
  | funcLit (tok : Token) (params : List (Token × String)) (body : Option (List Stmt))
  | callE (tok : Token) (func : Option Expr) (args : List (Option Expr))
  | arrLit (tok : Token) (elms : List (Option Expr))
  | hashLit (tok : Token) (pairs : List (Option Expr × Option Expr))
  | indexE (tok : Token) (left : Option Expr) (index : Option Expr)

inductive Stmt where
  | letS (tok : Token) (nameTok : Token) (name : String) (value : Option Expr)
  | retS (tok : Token) (value : Option Expr)
  | showS (tok : Token) (values : List (Option Expr))
  | includeS (tok : Token) (filename : Option Expr)
  | exprS (tok : Token) (expr : Option Expr)
  | comment (tok : Token) (text : String)
end


/-! ## Runtime objects (Modelled from the spec, section 3: the object package
is not under src/; which object carries which token follows the evaluator's
constructor calls in src/evaluator/evaluator.go) -/

/-- Modelled from the spec: the object type tags (`object.ObjType` constants
such as `NUM_OBJ`, `ERR_OBJ`). Their Go string values are not in src/; the
renderings chosen here only influence error-message text. -/
inductive ObjType where
  | nullT | boolT | numT | strT | arrT | hashT | funcT | builtinT | returnT | errT
deriving DecidableEq, Repr

/-- The string a type tag prints as inside error messages (Modelled from the
spec: the constants' values are not under src/). -/
def ObjType.render : ObjType → String
  | ObjType.nullT => "NULL"
  | ObjType.boolT => "BOOLEAN"
  | ObjType.numT => "NUM"
  | ObjType.strT => "STRING"
  | ObjType.arrT => "ARRAY"
  | ObjType.hashT => "HASH"
  | ObjType.funcT => "FUNCTION"
  | ObjType.builtinT => "BUILTIN"
  | ObjType.returnT => "RETURN_VAL"
  | ObjType.errT => "ERROR"

/-- Modelled from the spec: `HashKey` is a type tag plus a 64-bit digest. -/
structure HashKey where
  ttag : ObjType
  digest : Nat
deriving DecidableEq, Repr

/-- Frames are identified by their index in the store. -/
abbrev FrameId := Nat

/-- Modelled from the spec: the closed `object.Obj` variant. Array elements,
hash-pair values and the wrapped return value may be Go nil, hence Option.
A builtin is represented by its registry name; its native function lives in
the evaluation context. A function's captured environment is a frame id. -/
inductive Obj where
  | null
  | boolean (b : Bool)
  | number (value : Number) (isInt : Bool) (tok : Token)
  | str (value : String) (tok : Token)
  | arr (elms : List (Option Obj)) (tok : Token)
  | hash (pairs : List (HashKey × Obj × Option Obj))
  | function (params : List (Token × String)) (body : Option (List Stmt))
             (env : FrameId) (tok : Token)
  | builtin (name : String)
  | returnValue (value : Option Obj)
  | error (msg : String)

/-- The Go `obj.Type()` method. -/
def Obj.type : Obj → ObjType
  | Obj.null => ObjType.nullT
  | Obj.boolean _ => ObjType.boolT
  | Obj.number _ _ _ => ObjType.numT
  | Obj.str _ _ => ObjType.strT
  | Obj.arr _ _ => ObjType.arrT
  | Obj.hash _ => ObjType.hashT
  | Obj.function _ _ _ _ => ObjType.funcT
  | Obj.builtin _ => ObjType.builtinT
  | Obj.returnValue _ => ObjType.returnT
  | Obj.error _ => ObjType.errT

/-- The Go `obj.GetToken()` method: objects that store no token yield the
zero token (Modelled from the spec: the object package is not under src/). -/
def Obj.getToken : Obj → Token
  | Obj.number _ _ t => t
  | Obj.str _ t => t
  | Obj.arr _ t => t
  | Obj.function _ _ _ t => t
  | _ => zeroTok

/-- A Go `object.Obj` interface value: `none` is Go nil. -/
abbrev OObj := Option Obj

/-- src/evaluator/evaluator.go:416 `isErr`: nil is not an error. -/
def isErr : OObj → Bool
  | some o => o.type == ObjType.errT
  | none => false

/-- src/evaluator/evaluator.go:494 `isTruthy`: the comparisons against the
NULL/TRUE/FALSE singletons are by pointer; every boolean at runtime is one of
the two singletons and every null the NULL singleton, so they compare by
value; a nil obj matches no singleton and falls to the default (truthy). -/
def isTruthy : OObj → Bool
  | some Obj.null => false
  | some (Obj.boolean b) => b
  | some _ => true
  | none => true

/-- src/evaluator/evaluator.go:596 `getBoolObj`: the TRUE/FALSE singletons. -/
def getBoolObj (b : Bool) : Obj := Obj.boolean b

/-- src/evaluator/evaluator.go:372 `unwrapRValue` (identical to part_001's
`unwrapReturnValue`): unwrap one ReturnValue layer; the wrapped value may be
Go nil. -/
def unwrapRValue : OObj → OObj
  | some (Obj.returnValue v) => v
  | o => o

/-- src/evaluator/evaluator.go:604 `NewBareErr` (format already applied). -/
def NewBareErr (msg : String) : Obj := Obj.error msg

/-- Go pointer equality of two object interface values as used for `==`/`!=`
between operands that are not both numbers nor both strings. Nil equals nil;
the NULL/TRUE/FALSE singletons equal themselves; all other objects are
distinct freshly-allocated pointers, so they compare unequal. (Aliasing the
same array/hash/function object on both sides of `==` is not modelled; no
claim exercises it.) -/
def goIdEq : OObj → OObj → Bool
  | none, none => true
  | some Obj.null, some Obj.null => true
  | some (Obj.boolean a), some (Obj.boolean b) => a == b
  | _, _ => false

/-! ## Hash keys (Modelled from the spec, section 3) -/

/-- Modelled from the spec: FNV-1a 64 over the string's UTF-8 bytes. -/
def fnv1a64 (s : String) : Nat :=
  s.toUTF8.toList.foldl
    (fun h b => ((h ^^^ b.toNat) * 1099511628211) % 18446744073709551616)
    14695981039346656037

/-- Modelled from the spec: digest of a number key. Integers use the low 64
bits of the two's-complement value; the float case stands in for the IEEE-754
bit pattern with an injective encoding of the rational (no claim depends on
its exact bits). -/
def NumValue.digest : NumValue → Nat
  | NumValue.intV v => (v % (18446744073709551616 : Int)).toNat
  | NumValue.fltV q => Nat.pair (Nat.pair q.num.natAbs (if q.num < 0 then 1 else 0)) q.den

/-- Modelled from the spec: only strings, numbers and booleans are hashable;
`hashKeyOf` is `object.Hashable.HashKey()` for those, none otherwise. -/
def hashKeyOf : Obj → Option HashKey
  | Obj.boolean b => some ⟨ObjType.boolT, if b then 1 else 0⟩
  | Obj.number v _ _ => some ⟨ObjType.numT, v.value.digest⟩
  | Obj.str s _ => some ⟨ObjType.strT, fnv1a64 s⟩
  | _ => none

/-- Insertion into the Go map of hash pairs: replace the entry with the same
key in place, else append. -/
def hashInsert (k : HashKey) (pr : Obj × Option Obj) :
    List (HashKey × Obj × Option Obj) → List (HashKey × Obj × Option Obj)
  | [] => [(k, pr)]
  | (k', pr') :: rest =>
      if k' = k then (k, pr) :: rest else (k', pr') :: hashInsert k pr rest

/-- Lookup in the hash-pair map by key. -/
def hashLookup (k : HashKey) : List (HashKey × Obj × Option Obj) → Option (Obj × Option Obj)
  | [] => none
  | (k', pr) :: rest => if k' = k then some pr else hashLookup k rest

/-! ## Inspect (Modelled from the spec, section 6: Object.Inspect lives in the
object package, not under src/). Calling Inspect on a Go nil object is a
panic, modelled by none; the fuel only bounds recursion depth through nested
containers and is irrelevant on every concrete value. -/

mutual
/-- Modelled from the spec: the string rendering of each object variant.
Numbers render in decimal; strings render raw; arrays as bracketed
comma-separated elements; hashes as braced pairs; Null as null; booleans as
sotto/mittha; functions as an opaque tag. ReturnValue renders its payload and
Error prefixes its message (both unspecified by the spec; no claim depends on
their exact shape). -/
def inspect : Nat → Obj → Option String
  | 0, _ => none
  | _ + 1, Obj.null => some "null"
  | _ + 1, Obj.boolean b => some (if b then "sotto" else "mittha")
  | _ + 1, Obj.number v _ _ => some v.value.render
  | _ + 1, Obj.str s _ => some s
  | fuel + 1, Obj.arr elms _ =>
      (inspectElems fuel elms).map (fun xs => "[" ++ String.intercalate ", " xs ++ "]")
  | fuel + 1, Obj.hash pairs =>
      (inspectPairs fuel pairs).map (fun xs => "\x7b" ++ String.intercalate ", " xs ++ "\x7d")
  | _ + 1, Obj.function _ _ _ _ => some "ekti kaj"
  | _ + 1, Obj.builtin _ => some "builtin function"
  | fuel + 1, Obj.returnValue v =>
      match v with
      | none => none
      | some o => inspect fuel o
  | _ + 1, Obj.error m => some ("ERROR: " ++ m)

/-- Render a list of possibly-nil elements; a nil element is a panic. -/
def inspectElems : Nat → List (Option Obj) → Option (List String)
  | _, [] => some []
  | 0, _ :: _ => none
  | fuel + 1, o :: rest =>
      match o with
      | none => none
      | some x =>
          match inspect fuel x, inspectElems fuel rest with
          | some s, some ss => some (s :: ss)
          | _, _ => none

/-- Render hash pairs as key: value. -/
def inspectPairs : Nat → List (HashKey × Obj × Option Obj) → Option (List String)
  | _, [] => some []
  | 0, _ :: _ => none
  | fuel + 1, (_, k, v) :: rest =>
      match v with
      | none => none
      | some vo =>
          match inspect fuel k, inspect fuel vo, inspectPairs fuel rest with
          | some ks, some vs, some ss => some ((ks ++ ": " ++ vs) :: ss)
          | _, _, _ => none
end

/-! ## Error-line formatting, evaluator side (src/evaluator/evaluator.go:28-66)

Character-level model of Go's byte-level string slicing; on ASCII data the
two agree, and all string data flowing through evaluator error paths in this
file is ASCII. Out-of-bounds slicing is a Go panic, modelled by none. -/

/-- Go `s[:i]` on a string: valid for 0 ≤ i ≤ len. -/
def strTake (s : String) (i : Int) : Option String :=
  if 0 ≤ i ∧ i ≤ (s.length : Int) then some ⟨s.toList.take i.toNat⟩ else none

/-- Go `s[i:]` on a string: valid for 0 ≤ i ≤ len. -/
def strDrop (s : String) (i : Int) : Option String :=
  if 0 ≤ i ∧ i ≤ (s.length : Int) then some ⟨s.toList.drop i.toNat⟩ else none

/-- src/evaluator/evaluator.go:32 `ErrorHelper.GetLine`: split the source on
newlines and index by line number; an out-of-range index is a panic. -/
def GetLine (source : String) (lineNo : Int) : Option String :=
  if 0 ≤ lineNo - 1 then (source.splitOn "\n")[(lineNo - 1).toNat]? else none

/-- src/evaluator/evaluator.go:36 `ErrorHelper.MakeErrorLine`: virtual tokens
(line number ≤ 0) yield the empty string; otherwise the source line is
fetched and, when a hint is requested, arrow markers are spliced in around
the token's column span (the left index is clamped at 0, the right index is
left+1 for literals of length ≤ 1). -/
def MakeErrorLine (source : String) (t : Token) (showHint : Bool) : Option String :=
  if t.lineNo ≤ 0 then some ""
  else
    match GetLine source t.lineNo with
    | none => none
    | some xLine =>
        if showHint then
          let lI0 : Int := t.column - 1
          let lIndex : Int := if lI0 < 0 then 0 else lI0
          let rIndex : Int :=
            if t.literal.length ≤ 1 then lIndex + 1
            else t.column + (t.literal.length : Int) - 1
          match strTake xLine rIndex, strDrop xLine rIndex with
          | some a, some b =>
              let newL := a ++ " <-- " ++ b
              match strTake newL lIndex, strDrop newL lIndex with
              | some c, some d =>
                  some (toString t.lineNo ++ "| " ++ (c ++ " --> " ++ d))
              | _, _ => none
          | _, _ => none
        else some (toString t.lineNo ++ "| " ++ xLine)

/-- src/evaluator/evaluator.go:410 `NewErr`: the error message is the
formatted source line, a newline, and the description (format already
applied). A none result is a panic inside MakeErrorLine. -/
def NewErr (source : String) (t : Token) (showHint : Bool) (msg : String) : Option Obj :=
  (MakeErrorLine source t showHint).map (fun line => Obj.error (line ++ "\n" ++ msg))

/-! ## Environments (Modelled from the spec, section 3: the object package's
Env is not under src/). The heap of frames is explicit: a store is a list of
frames, a frame holds bindings (whose values may be Go nil) and an optional
outer frame id. `object.NewEnv` appends a fresh frame; `object.NewEnclosedEnv`
appends a fresh frame with the given outer. -/

/-- Modelled from the spec: one environment frame. -/
structure Frame where
  bindings : List (String × OObj)
  outer : Option FrameId

/-- The heap of frames; a frame id is an index into this list. -/
abbrev Store := List Frame

/-- Set a binding inside one frame (Go map assignment: replace or add). -/
def Frame.setB (f : Frame) (n : String) (v : OObj) : Frame :=
  ⟨go f.bindings, f.outer⟩
where go : List (String × OObj) → List (String × OObj)
  | [] => [(n, v)]
  | (n', v') :: rest => if n' = n then (n, v) :: rest else (n', v') :: go rest

/-- Read a binding from one frame (Go map read with ok flag: some means
present, possibly bound to nil). -/
def Frame.getB (f : Frame) (n : String) : Option OObj :=
  go f.bindings
where go : List (String × OObj) → Option OObj
  | [] => none
  | (n', v) :: rest => if n' = n then some v else go rest

/-- Modelled from the spec: `Env.Get` walks the outer chain. The fuel bounds
chain length; a store's own size always suffices on the acyclic chains the
evaluator builds. -/
def envGet (s : Store) : Nat → FrameId → String → Option OObj
  | 0, _, _ => none
  | fuel + 1, id, n =>
      match s[id]? with
      | none => none
      | some f =>
          match f.getB n with
          | some v => some v
          | none =>
              match f.outer with
              | some oid => envGet s fuel oid n
              | none => none

/-- Modelled from the spec: `Env.Set` writes into the innermost frame. -/
def envSet (s : Store) (id : FrameId) (n : String) (v : OObj) : Store :=
  match s[id]? with
  | none => s
  | some f => s.set id (f.setB n v)

/-- Allocate a fresh frame (`object.NewEnv` / `object.NewEnclosedEnv`). -/
def allocFrame (s : Store) (outer : Option FrameId) : Store × FrameId :=
  (s ++ [⟨[], outer⟩], s.length)

/-! ## Evaluation context and state -/

/-- What loading an include file can yield. Modelled from the spec: the
SourceLoader collaborator and the lexing/parsing of the loaded text (the
lexer package is not under src/) are folded into one oracle that returns the
parsed program together with whether the parser collected errors. -/
inductive FileEntry where
  | notExist
  | readErr
  | found (hasParseErrs : Bool) (prog : List Stmt)

/-- Everything an evaluation closes over: the ErrorHelper source, the builtin
registry (a name test plus the native implementations, external collaborators
per the spec), the include-file oracle, and the iteration order of
hash-literal pair maps (Go map iteration order is unspecified; `perm` makes a
run's order explicit). -/
structure Ctx where
  source : String
  builtins : String → Bool
  builtinImpl : String → List OObj → OObj
  fs : String → FileEntry
  perm : List (Option Expr × Option Expr) → List (Option Expr × Option Expr)

/-- Mutable evaluation state: the frame heap and the print buffer. -/
structure St where
  store : Store
  buff : String

/-- A result of a Go helper that returns an object but may panic:
none is the panic. -/
abbrev PRes := Option OObj

/-! ## Non-recursive evaluator helpers (src/evaluator/evaluator.go) -/

/-- src/evaluator/evaluator.go:583 `evalBangOp`: pointer-matches the three
singletons; any other object — and a Go nil — falls to the default FALSE. -/
def evalBangOp : OObj → Obj
  | some (Obj.boolean b) => getBoolObj (!b)
  | some Obj.null => getBoolObj true
  | some _ => getBoolObj false
  | none => getBoolObj false

/-- src/evaluator/evaluator.go:575 `evalMinusPrefOp`: requires a Number; a
nil operand panics when its type is read. The result copies the object's
IsInt flag and carries no token. -/
def evalMinusPrefOp : OObj → PRes
  | none => none
  | some ro =>
      match ro with
      | Obj.number v i _ => some (some (Obj.number (MakeNeg v) i zeroTok))
      | _ => some (some (NewBareErr ("unknown Operator : -" ++ ro.type.render)))

/-- src/evaluator/evaluator.go:563 `evalPrefixExpr`. The default branch
formats the operand's type, panicking on nil. -/
def evalPrefixExpr (op : String) (right : OObj) : PRes :=
  if op == "!" then some (some (evalBangOp right))
  else if op == "-" then evalMinusPrefOp right
  else
    match right with
    | none => none
    | some ro => some (some (NewBareErr ("Unknown Operator : " ++ op ++ ro.type.render)))

/-- src/evaluator/evaluator.go:545 `evalNumInfixExpr` over the two inner
number values (the Go code reaches this only after both types are NUM). -/
def evalNumInfixExpr (op : String) (lv rv : Number) : Obj :=
  let out := NumberOperation op lv rv
  match out.val with
  | some v =>
      if out.noerr then Obj.number v v.isInt zeroTok
      else NewBareErr ("Unknown Operator for Numbers " ++ op)
  | none =>
      if out.noerr then getBoolObj out.cval
      else NewBareErr ("Unknown Operator for Numbers " ++ op)

/-- src/evaluator/evaluator.go:528 `evalStringInfixExpr`: concatenation and
value equality; other operators yield a formatted error. -/
def evalStringInfixExpr (source : String) (op : String) (l r : Obj) : PRes :=
  match l, r with
  | Obj.str lval _, Obj.str rval _ =>
      if op == "+" then some (some (Obj.str (lval ++ rval) zeroTok))
      else if op == "==" then some (some (getBoolObj (lval == rval)))
      else if op == "!=" then some (some (getBoolObj (lval != rval)))
      else
        (NewErr source l.getToken false
          ("Unknown Operator " ++ l.type.render ++ " " ++ op ++ " " ++ r.type.render)).map some
  | _, _ => none

/-- The tail of `evalInfixExpr` (src/evaluator/evaluator.go:517-525): the
`==`/`!=` pointer comparisons never read the right type, so they tolerate a
nil right operand; the two error branches read both types. -/
def evalInfixRest (source : String) (op : String) (lo : Obj) (r : OObj) : PRes :=
  if op == "==" then some (some (getBoolObj (goIdEq (some lo) r)))
  else if op == "!=" then some (some (getBoolObj (!goIdEq (some lo) r)))
  else
    match r with
    | none => none
    | some ro =>
        if lo.type != ro.type then
          (NewErr source lo.getToken false
            ("Type mismatch:  " ++ lo.type.render ++ " " ++ op ++ " " ++ ro.type.render ++ " ")).map some
        else
          (NewErr source lo.getToken false
            ("unknown Operator : " ++ lo.type.render ++ " " ++ op ++ " " ++ ro.type.render)).map some

/-- src/evaluator/evaluator.go:507 `evalInfixExpr`: dispatch on operand
types. Reading the type of a nil operand is a panic; Go's `&&` short-circuit
means the right type is only read when the left matched the case. -/
def evalInfixExpr (source : String) (op : String) (l r : OObj) : PRes :=
  match l with
  | none => none
  | some lo =>
      if lo.type == ObjType.numT then
        match r with
        | none => none
        | some ro =>
            if ro.type == ObjType.numT then
              match lo, ro with
              | Obj.number lv _ _, Obj.number rv _ _ =>
                  some (some (evalNumInfixExpr op lv rv))
              | _, _ => none
            else evalInfixRest source op lo (some ro)
      else if lo.type == ObjType.strT then
        match r with
        | none => none
        | some ro =>
            if ro.type == ObjType.strT then evalStringInfixExpr source op lo ro
            else evalInfixRest source op lo (some ro)
      else evalInfixRest source op lo r

/-- src/evaluator/evaluator.go:278 `evalArrIndexExpr` after the type asserts:
coerce the number to an integer, Null outside [0, len), else the element
(which may itself be a stored Go nil). -/
def evalArrIndexExpr (elms : List OObj) (id : Number) : OObj :=
  let (idx, noerr) := GetAsInt id.value
  if !noerr then some (NewBareErr "Arr Index Failed")
  else
    let mx : Int := (elms.length : Int) - 1
    if idx < 0 ∨ idx > mx then some Obj.null
    else (elms[idx.toNat]?).getD none

/-- src/evaluator/evaluator.go:259 `evalHashIndexExpr`: a nil index panics
inside the non-hashable error's format; a hashable index looks up by
HashKey, Null on miss. -/
def evalHashIndexExpr (source : String) (pairs : List (HashKey × Obj × OObj))
    (index : OObj) : PRes :=
  match index with
  | none => none
  | some io =>
      match hashKeyOf io with
      | none =>
          (NewErr source io.getToken true
            ("This cannot be used as hash key " ++ io.type.render)).map some
      | some k =>
          match hashLookup k pairs with
          | none => some (some Obj.null)
          | some pr => some pr.2

/-- src/evaluator/evaluator.go:245 `evalIndexExpr`: arrays want a Number
index, hashes take any index, everything else is an unsupported-index error
formatted with the left type. Type reads of nil operands panic; the array
case reads the index type only after the left type matched ARRAY. -/
def evalIndexExpr (source : String) (l index : OObj) : PRes :=
  match l with
  | none => none
  | some lo =>
      if lo.type == ObjType.arrT then
        match index with
        | none => none
        | some io =>
            if io.type == ObjType.numT then
              match lo, io with
              | Obj.arr elms _, Obj.number idv _ _ => some (evalArrIndexExpr elms idv)
              | _, _ => none
            else
              (NewErr source lo.getToken true
                ("Unsupported Index Operator " ++ lo.type.render ++ " ")).map some
      else if lo.type == ObjType.hashT then
        match lo with
        | Obj.hash pairs => evalHashIndexExpr source pairs index
        | _ => none
      else
        (NewErr source lo.getToken true
          ("Unsupported Index Operator " ++ lo.type.render ++ " ")).map some

/-- src/evaluator/evaluator.go:397 `evalId`: environment chain first, then
the builtin registry, then an id-not-found error. -/
def evalId (ctx : Ctx) (tok : Token) (name : String) (s : Store) (env : FrameId) : PRes :=
  match envGet s s.length env name with
  | some v => some v
  | none =>
      if ctx.builtins name then some (some (Obj.builtin name))
      else (NewErr ctx.source tok true ("id not found : " ++ name)).map some

/-- src/evaluator/evaluator.go:207 `evalShowStmt`: render every argument with
Inspect (a nil argument panics), concatenate, append to the print buffer with
a trailing newline (the os.Pipe detour nets to exactly that write), return
the NULL singleton. No error check is performed on the arguments. -/
def evalShowStmt (fuel : Nat) (args : List OObj) (st : St) : Option (St × OObj) :=
  match inspectElems fuel args with
  | none => none
  | some xs =>
      some ({ st with buff := st.buff ++ String.join xs ++ "\n" }, some Obj.null)

/-- src/evaluator/evaluator.go:316 `extendFuncEnv`: a fresh frame enclosed
over the function's captured environment, with each parameter Set to the
positionally matching argument (later duplicates overwrite earlier ones,
as Go's map Set does). -/
def extendFuncEnv (s : Store) (params : List (Token × String)) (args : List OObj)
    (fnEnv : FrameId) : Store × FrameId :=
  (s ++ [(params.zip args).foldl (fun (f : Frame) pa => f.setB pa.1.2 pa.2) ⟨[], some fnEnv⟩],
   s.length)

/-- The apostrophe character, kept out of string literals. -/
def apos : String := String.singleton (Char.ofNat 39)

/-- The arity-mismatch message of `applyFunc`
(src/evaluator/evaluator.go:306 and src/unnamed/part_001:27). -/
def arityMsg (wanted got : Nat) : String :=
  "Function call doesn" ++ apos ++ "t have required arguments provided; wanted = "
    ++ toString wanted ++ " but got " ++ toString got

/-! ## The evaluator (src/evaluator/evaluator.go:68 `Eval` and its recursive
helpers). Go's single `Eval` switch is split along the expression/statement
role of the node; the fuel decreases on every nested call and only bounds
recursion depth. The result's outer `none` means fuel ran out or the Go code
panicked; `some (st, none)` is Go returning nil. -/

mutual

/-- The expression cases of `Eval` (src/evaluator/evaluator.go:68). -/
def evalE (ctx : Ctx) : Nat → Expr → FrameId → St → Option (St × OObj)
  | 0, _, _, _ => none
  | fuel + 1, e, env, st =>
      match e with
      | Expr.ident tok v =>
          match evalId ctx tok v st.store env with
          | none => none
          | some r => some (st, r)
      | Expr.numberLit tok v i => some (st, some (Obj.number v i tok))
      | Expr.stringLit tok v => some (st, some (Obj.str v tok))
      | Expr.boolLit _ v => some (st, some (getBoolObj v))
      | Expr.prefixE _ op right => do
          let (st1, r) ← evalOE ctx fuel right env st
          if isErr r then some (st1, r)
          else match evalPrefixExpr op r with
          | none => none
          | some res => some (st1, res)
      | Expr.infixE _ op left right => do
          let (st1, l) ← evalOE ctx fuel left env st
          if isErr l then some (st1, l)
          else do
            let (st2, r) ← evalOE ctx fuel right env st1
            if isErr r then some (st2, r)
            else match evalInfixExpr ctx.source op l r with
            | none => none
            | some res => some (st2, res)
      | Expr.ifE _ cond tb eb => do
          -- src/evaluator/evaluator.go:462 evalIfExpr
          let (st1, c) ← evalOE ctx fuel cond env st
          if isErr c then some (st1, c)
          else if isTruthy c then evalBlockO ctx fuel tb env st1
          else match eb with
          | some ebStmts => evalBlockStmts ctx fuel ebStmts env st1 none
          | none => some (st1, some Obj.null)
      | Expr.whileE _ cond body => do
          -- src/evaluator/evaluator.go:479 evalWhileExpr
          let (st1, c) ← evalOE ctx fuel cond env st
          if isErr c then some (st1, c)
          else evalWhileLoop ctx fuel cond body env c none st1
      | Expr.funcLit tok params body =>
          some (st, some (Obj.function params body env tok))
      | Expr.callE tok func args => do
          let (st1, fnc) ← evalOE ctx fuel func env st
          if isErr fnc then some (st1, fnc)
          else do
            let (st2, argv) ← evalExprs ctx fuel args env st1
            match argv with
            | [a] =>
                if isErr a then some (st2, a)
                else applyFunc ctx fuel fnc tok argv st2
            | _ => applyFunc ctx fuel fnc tok argv st2
      | Expr.arrLit tok elms => do
          let (st1, elv) ← evalExprs ctx fuel elms env st
          match elv with
          | [a] =>
              if isErr a then some (st1, a)
              else some (st1, some (Obj.arr elv tok))
          | _ => some (st1, some (Obj.arr elv tok))
      | Expr.hashLit tok pairs =>
          -- src/evaluator/evaluator.go:177 evalHashLit; the map iteration
          -- order over the parsed pairs is the context's perm
          evalHashPairs ctx fuel tok (ctx.perm pairs) env st []
      | Expr.indexE _ left index => do
          let (st1, l) ← evalOE ctx fuel left env st
          if isErr l then some (st1, none)   -- evaluator.go:150: returns nil, not the error
          else do
            let (st2, idx) ← evalOE ctx fuel index env st1
            if isErr idx then some (st2, idx)
            else match evalIndexExpr ctx.source l idx with
            | none => none
            | some res => some (st2, res)

termination_by structural fuel => fuel

/-- `Eval` on a possibly-nil expression child: Go's `Eval(nil)` matches no
switch case and returns nil. -/
def evalOE (ctx : Ctx) : Nat → Option Expr → FrameId → St → Option (St × OObj)
  | 0, _, _, _ => none
  | _ + 1, none, _, st => some (st, none)
  | fuel + 1, some e, env, st => evalE ctx fuel e env st

termination_by structural fuel => fuel

/-- The statement cases of `Eval` (src/evaluator/evaluator.go:68). A comment
node matches no switch case, so it returns nil. -/
def evalS (ctx : Ctx) : Nat → Stmt → FrameId → St → Option (St × OObj)
  | 0, _, _, _ => none
  | fuel + 1, s, env, st =>
      match s with
      | Stmt.letS _ _ name value => do
          let (st1, val) ← evalOE ctx fuel value env st
          if isErr val then some (st1, val)
          else some ({ st1 with store := envSet st1.store env name val }, none)
      | Stmt.retS _ value => do
          let (st1, val) ← evalOE ctx fuel value env st
          if isErr val then some (st1, val)
          else some (st1, some (Obj.returnValue val))
      | Stmt.showS _ values => do
          let (st1, args) ← evalExprs ctx fuel values env st
          evalShowStmt fuel args st1
      | Stmt.includeS tok filename => do
          let (st1, newEnv, val) ← evalIncludeStmt ctx fuel tok filename env st
          if val.type != ObjType.errT then
            -- evaluator.go:166: *env = *object.NewEnclosedEnv(newEnv)
            some ({ st1 with store := st1.store.set env ⟨[], some newEnv⟩ }, none)
          else some (st1, some val)
      | Stmt.exprS _ expr => evalOE ctx fuel expr env st
      | Stmt.comment _ _ => some (st, none)

termination_by structural fuel => fuel

/-- src/evaluator/evaluator.go:445 `evalProg`: statements in order; a
ReturnValue ends the program unwrapped, an Error ends it as-is; otherwise the
last statement's result (initially nil) is the program's. -/
def evalProgStmts (ctx : Ctx) : Nat → List Stmt → FrameId → St → OObj → Option (St × OObj)
  | _, [], _, st, res => some (st, res)
  | 0, _ :: _, _, _, _ => none
  | fuel + 1, stmt :: rest, env, st, _ => do
      let (st1, r) ← evalS ctx fuel stmt env st
      match r with
      | some (Obj.returnValue v) => some (st1, v)
      | some (Obj.error m) => some (st1, some (Obj.error m))
      | _ => evalProgStmts ctx fuel rest env st1 r

termination_by structural fuel => fuel

/-- src/evaluator/evaluator.go:424 `evalBlockStmt`: statements in order;
ReturnValue and Error are returned unwrapped-as-is; otherwise the last
non-initial result (initially nil) is the block's. -/
def evalBlockStmts (ctx : Ctx) : Nat → List Stmt → FrameId → St → OObj → Option (St × OObj)
  | _, [], _, st, res => some (st, res)
  | 0, _ :: _, _, _, _ => none
  | fuel + 1, stmt :: rest, env, st, _ => do
      let (st1, r) ← evalS ctx fuel stmt env st
      match r with
      | some o =>
          if o.type == ObjType.returnT || o.type == ObjType.errT then some (st1, some o)
          else evalBlockStmts ctx fuel rest env st1 (some o)
      | none => evalBlockStmts ctx fuel rest env st1 none

termination_by structural fuel => fuel

/-- `Eval` on a `*ast.BlockStmt` pointer: a nil pointer still matches the
BlockStmt switch case and panics reading its statement list. -/
def evalBlockO (ctx : Ctx) : Nat → Option (List Stmt) → FrameId → St → Option (St × OObj)
  | 0, _, _, _ => none
  | _ + 1, none, _, _ => none
  | fuel + 1, some stmts, env, st => evalBlockStmts ctx fuel stmts env st none

termination_by structural fuel => fuel

/-- src/evaluator/evaluator.go:381 `evalExprs`: left to right; the first
error is returned as a singleton list. -/
def evalExprs (ctx : Ctx) : Nat → List (Option Expr) → FrameId → St → Option (St × List OObj)
  | _, [], _, st => some (st, [])
  | 0, _ :: _, _, _ => none
  | fuel + 1, e :: rest, env, st => do
      let (st1, ev) ← evalOE ctx fuel e env st
      if isErr ev then some (st1, [ev])
      else do
        let (st2, res) ← evalExprs ctx fuel rest env st1
        some (st2, ev :: res)

termination_by structural fuel => fuel

/-- The loop of `evalWhileExpr` (src/evaluator/evaluator.go:486): while the
condition value is truthy — an Error condition is truthy — evaluate the body
into `result` and re-evaluate the condition, with no error check on either;
when the condition value stops being truthy return the last body result
(Go nil when the body never ran). -/
def evalWhileLoop (ctx : Ctx) :
    Nat → Option Expr → Option (List Stmt) → FrameId → OObj → OObj → St →
    Option (St × OObj)
  | fuel, cond, body, env, condVal, result, st =>
      if isTruthy condVal then
        match fuel with
        | 0 => none
        | f + 1 => do
            let (st1, r) ← evalBlockO ctx f body env st
            let (st2, c2) ← evalOE ctx f cond env st1
            evalWhileLoop ctx f cond body env c2 r st2
      else some (st, result)

termination_by structural fuel => fuel

/-- The pair loop of `evalHashLit` (src/evaluator/evaluator.go:180): each key
is evaluated (errors propagate; a nil key panics in the non-hashable error's
format), checked hashable (else an error carrying the hash literal's token),
then the value (errors propagate), and the pair is stored under its HashKey. -/
def evalHashPairs (ctx : Ctx) :
    Nat → Token → List (Option Expr × Option Expr) → FrameId → St →
    List (HashKey × Obj × OObj) → Option (St × OObj)
  | _, _, [], _, st, acc => some (st, some (Obj.hash acc))
  | 0, _, _ :: _, _, _, _ => none
  | fuel + 1, htok, (k, v) :: rest, env, st, acc => do
      let (st1, key) ← evalOE ctx fuel k env st
      if isErr key then some (st1, key)
      else match key with
      | none => none
      | some ko =>
          match hashKeyOf ko with
          | none =>
              match NewErr ctx.source htok true
                  ("object cannot be used as hash key " ++ ko.type.render) with
              | none => none
              | some e => some (st1, some e)
          | some hk => do
              let (st2, val) ← evalOE ctx fuel v env st1
              if isErr val then some (st2, val)
              else evalHashPairs ctx fuel htok rest env st2 (hashInsert hk (ko, val) acc)

termination_by structural fuel => fuel

/-- src/evaluator/evaluator.go:296 `applyFunc` (part_001:10 is the same
modulo a GUI flag it only forwards): a Function checks arity, runs its body
in an extended environment and unwraps a ReturnValue; a Builtin calls its
native implementation; anything else is a not-a-function error, panicking on
a nil callee when its type is read. -/
def applyFunc (ctx : Ctx) : Nat → OObj → Token → List OObj → St → Option (St × OObj)
  | 0, _, _, _, _ => none
  | fuel + 1, fn, caller, args, st =>
      match fn with
      | some (Obj.function params body fnEnv _) =>
          if params.length == args.length then
            let (s1, eid) := extendFuncEnv st.store params args fnEnv
            do
              let (st2, evd) ← evalBlockO ctx fuel body eid { st with store := s1 }
              some (st2, unwrapRValue evd)
          else
            match NewErr ctx.source caller false (arityMsg params.length args.length) with
            | none => none
            | some e => some (st, some e)
      | some (Obj.builtin n) => some (st, ctx.builtinImpl n args)
      | some o => some (st, some (NewBareErr (o.type.render ++ " is not a function")))
      | none => none

termination_by structural fuel => fuel

/-- src/evaluator/evaluator.go:328 `evalIncludeStmt`: evaluate the filename
(a nil result panics at the type read), allocate the scratch env `enx`, then
either fail (non-string filename, missing file, unreadable file) or load the
file, allocate a fresh env `ex`, evaluate the included program there with its
result discarded, and fail late on parse errors; on success return `ex` and a
fresh Null. -/
def evalIncludeStmt (ctx : Ctx) :
    Nat → Token → Option Expr → FrameId → St → Option (St × FrameId × Obj)
  | 0, _, _, _, _ => none
  | fuel + 1, inTok, filename, env, st => do
      let (st1, rawFilename) ← evalOE ctx fuel filename env st
      let (s2, enxId) := allocFrame st1.store none
      let st2 := { st1 with store := s2 }
      match rawFilename with
      | none => none
      | some ro =>
          if ro.type != ObjType.strT then
            match inspect fuel ro with
            | none => none
            | some ins =>
                match NewErr ctx.source ro.getToken true
                    ("include filename is invalid " ++ ins) with
                | none => none
                | some e => some (st2, enxId, e)
          else match ro with
          | Obj.str fn _ =>
              match ctx.fs fn with
              | FileEntry.notExist =>
                  match NewErr ctx.source inTok true (fn ++ " include file doesnot exists") with
                  | none => none
                  | some e => some (st2, enxId, e)
              | FileEntry.readErr =>
                  match NewErr ctx.source ro.getToken true
                      ("Failed to read include file " ++ fn) with
                  | none => none
                  | some e => some (st2, enxId, e)
              | FileEntry.found hasPE prog =>
                  let (s3, exId) := allocFrame st2.store none
                  do
                    let (st4, _) ← evalProgStmts ctx fuel prog exId { st2 with store := s3 } none
                    if hasPE then
                      match NewErr ctx.source ro.getToken true
                          "Include file contains parsing errors" with
                      | none => none
                      | some e => some (st4, enxId, e)
                    else some (st4, exId, Obj.null)
          | _ => none

termination_by structural fuel => fuel

end

/-- `Eval` on an `*ast.Program` node with a given starting environment. -/
def EvalProgram (ctx : Ctx) : Nat → List Stmt → FrameId → St → Option (St × OObj)
  | 0, _, _, _ => none
  | fuel + 1, stmts, env, st => evalProgStmts ctx fuel stmts env st none

/-! ## The Pratt parser (src/unnamed/part_000, package parser)

The lexer is not under src/: its token stream is the parser state's token
list, with EOF tokens produced forever after exhaustion (spec section 4.1),
and its `GetLine` is modelled from the spec as 1-based line retrieval.
Parse functions that can return a nil AST node return Option. A parser error
record whose error line would have made `MakeErrorLine` slice out of bounds
stores none for the line (the running Go program would abort there; no claim
exercises such a record). -/

/-- Modelled from the spec: the precedence ladder (part_000:17, iota from 1). -/
def LOWEST : Nat := 1
/-- Precedence of equality operators. -/
def EQUALS : Nat := 2
/-- Precedence of comparison operators. -/
def LTGT : Nat := 3
/-- Precedence of additive operators. -/
def SUM : Nat := 4
/-- Precedence of multiplicative operators. -/
def PROD : Nat := 5
/-- Precedence of prefix operators. -/
def PREFIX : Nat := 6
/-- Precedence of a call. -/
def CALL : Nat := 7
/-- Precedence of an index. -/
def INDEX : Nat := 8

/-- part_000:29 `precedences`: the token-kind to precedence table. -/
def precedenceOf : TokenType → Option Nat
  | TokenType.EQEQ => some EQUALS
  | TokenType.NOT_EQ => some EQUALS
  | TokenType.LT => some LTGT
  | TokenType.GT => some LTGT
  | TokenType.GTE => some LTGT
  | TokenType.LTE => some LTGT
  | TokenType.PLUS => some SUM
  | TokenType.MINUS => some SUM
  | TokenType.DIV => some PROD
  | TokenType.MUL => some PROD
  | TokenType.LPAREN => some CALL
  | TokenType.LS_BRACKET => some INDEX
  | _ => none

/-- part_000: the parser's error records (package errs is not under src/;
modelled from the spec, section 7). The HumanFriendly renaming of expected
tokens lives in the missing token package and is modelled as the identity. -/
inductive PErr where
  | peekE (expected : TokenType) (got : Token) (errLine : Option String)
  | noPrefixE (tok : Token) (errLine : Option String)
  | noEktiE (ttype : TokenType) (errLine : Option String)

/-- The EOF token the modelled lexer emits at and after exhaustion. -/
def eofTok : Token := ⟨TokenType.EOF, "", 0, 0⟩

/-- Parser state: part_000:45 (current and peek token, the rest of the token
stream standing for the lexer, the lexer's source for GetLine, and the
collected errors). -/
structure PState where
  src : String
  curTok : Token
  peekTok : Token
  rest : List Token
  errs : List PErr

/-- part_000:272 `nextToken`: shift peek into current and pull one token from
the lexer (EOF forever once exhausted). -/
def pnext (p : PState) : PState :=
  { p with curTok := p.peekTok, peekTok := p.rest.headD eofTok, rest := p.rest.tail }

/-- part_000:61 `NewParser`: two nextToken calls fill current and peek from
the zero token state. -/
def initParser (src : String) (toks : List Token) : PState :=
  pnext (pnext ⟨src, zeroTok, zeroTok, toks, []⟩)

/-- Modelled from the spec (section 4.1): the lexer's `GetLine`, 1-based. -/
def lexGetLine (src : String) (n : Int) : Option String :=
  if 0 ≤ n - 1 then (src.splitOn "\n")[(n - 1).toNat]? else none

/-- part_000:403 `MakeErrorLine` (parser side), character-level: splice the
arrow markers around the token's column span; no clamping and no line-number
guard, so out-of-range indexes panic (none). -/
def makeErrorLinePChar (t : Token) (line : String) : Option String :=
  let lIndex : Int := t.column - 1
  let rIndex : Int :=
    if t.literal.length ≤ 1 then lIndex + 1
    else t.column + (t.literal.length : Int) - 1
  match strTake line rIndex, strDrop line rIndex with
  | some a, some b =>
      let newL := a ++ " <-- " ++ b
      match strTake newL lIndex, strDrop newL lIndex with
      | some c, some d => some (toString t.lineNo ++ "| " ++ (c ++ " --> " ++ d))
      | _, _ => none
  | _, _ => none

/-- The error line attached to parser errors:
`MakeErrorLine(tok, p.lx.GetLine(tok.LineNo))`. -/
def mkParserErrLine (src : String) (t : Token) : Option String :=
  match lexGetLine src t.lineNo with
  | none => none
  | some line => makeErrorLinePChar t line

/-- part_000:263 `peekErr`: record a PeekError against the current token's
line. -/
def peekErrRec (p : PState) (t : TokenType) : PState :=
  { p with errs := p.errs ++ [PErr.peekE t p.peekTok (mkParserErrLine p.src p.curTok)] }

/-- part_000:418 `noPrefixFunctionErr`: a bare FUNC keyword gets a NoEkti
error, anything else a NoPrefixSuffix error. -/
def noPrefixErrRec (p : PState) (t : Token) : PState :=
  if t.ttype == TokenType.FUNC then
    { p with errs := p.errs ++ [PErr.noEktiE t.ttype (mkParserErrLine p.src t)] }
  else
    { p with errs := p.errs ++ [PErr.noPrefixE p.curTok (mkParserErrLine p.src t)] }

/-- part_000:649 `peek`: advance past an expected peek token, else record a
PeekError and stay. -/
def peekAdv (p : PState) (t : TokenType) : PState × Bool :=
  if p.peekTok.ttype == t then (pnext p, true) else (peekErrRec p t, false)

/-- part_000:663 `peekPrec`. -/
def peekPrec (p : PState) : Nat := (precedenceOf p.peekTok.ttype).getD LOWEST

/-- part_000:672 `curPrec`. -/
def curPrec (p : PState) : Nat := (precedenceOf p.curTok.ttype).getD LOWEST

/-- Modelled from the spec: big.Int SetString base 10 on a digit literal. -/
def strToIntLit (s : String) : Int :=
  s.toList.foldl (fun acc c => acc * 10 + ((c.toNat : Int) - 48)) 0

/-- Modelled from the spec: big.Float SetString on a digits-dot-digits
literal. -/
def strToRatLit (s : String) : Rat :=
  match s.splitOn "." with
  | [a] => (strToIntLit a : Rat)
  | [a, b] => (strToIntLit a : Rat) + (strToIntLit b : Rat) / ((10 : Rat) ^ b.length)
  | _ => 0

/-- part_000:482 `parseNumLit`: a dotted literal parses as float, otherwise
integer. -/
def parseNumLit (p : PState) : Option Expr :=
  let lit := p.curTok.literal
  if IsFloat lit then
    some (Expr.numberLit p.curTok ⟨NumValue.fltV (strToRatLit lit), false⟩ false)
  else
    some (Expr.numberLit p.curTok ⟨NumValue.intV (strToIntLit lit), true⟩ true)

/-- part_000:468 `parseIdent`. -/
def parseIdent (p : PState) : Option Expr :=
  some (Expr.ident p.curTok p.curTok.literal)

/-- part_000:477 `parseBool`. -/
def parseBool (p : PState) : Option Expr :=
  some (Expr.boolLit p.curTok (p.curTok.ttype == TokenType.TRUE))

/-- part_000:185 `parseStringLit`. -/
def parseStringLit (p : PState) : Option Expr :=
  some (Expr.stringLit p.curTok p.curTok.literal)

/-- part_000:315 `parseComment`. -/
def parseComment (p : PState) : Option Stmt :=
  some (Stmt.comment p.curTok p.curTok.literal)

/-- The semicolon-skipping loop at the end of `parseLetStmt` (part_000:381);
the fuel is the stream length, which the loop can never outrun. -/
def skipSemisAux : Nat → PState → PState
  | 0, p => p
  | n + 1, p =>
      if p.peekTok.ttype == TokenType.SEMICOLON then skipSemisAux n (pnext p) else p

/-- Skip every immediately following semicolon token. -/
def skipSemis (p : PState) : PState := skipSemisAux (p.rest.length + 2) p

/-- part_000:217 `parseFuncParams`: an identifier list up to the closing
parenthesis; an expectation failure yields the nil list. No expression
recursion, so the loop's fuel is the stream length. -/
def parseFuncParamsAux : Nat → PState → List (Token × String) →
    PState × Option (List (Token × String))
  | 0, p, _ => (p, none)
  | n + 1, p, acc =>
      if p.peekTok.ttype == TokenType.COMMA then
        let p1 := pnext (pnext p)
        parseFuncParamsAux n p1 (acc ++ [(p1.curTok, p1.curTok.literal)])
      else
        match peekAdv p TokenType.RPAREN with
        | (p2, true) => (p2, some acc)
        | (p2, false) => (p2, none)

/-- part_000:217 `parseFuncParams`, entry. -/
def parseFuncParams (p : PState) : PState × Option (List (Token × String)) :=
  if p.peekTok.ttype == TokenType.RPAREN then (pnext p, some [])
  else
    let p1 := pnext p
    parseFuncParamsAux (p1.rest.length + 2) p1 [(p1.curTok, p1.curTok.literal)]

/-- Go map insertion keyed by `ast.Expr` interface pointers
(part_000:124 `hash.Pairs[k] = val`): freshly parsed expressions are distinct
pointers and append; two nil keys are the same key and overwrite. -/
def hashPairsInsert (acc : List (Option Expr × Option Expr)) (k v : Option Expr) :
    List (Option Expr × Option Expr) :=
  match k with
  | some _ => acc ++ [(k, v)]
  | none =>
      if acc.any (fun pr => pr.1.isNone) then
        acc.map (fun pr => if pr.1.isNone then (none, v) else pr)
      else acc ++ [(none, v)]

mutual

/-- part_000:442 `parseExpr`: prefix dispatch on the current token (the
registration table of part_000:68 becomes a match), then the infix loop. -/
def parseExpr : Nat → PState → Nat → PState × Option Expr
  | 0, p, _ => (p, none)
  | fuel + 1, p, prec =>
      match p.curTok.ttype with
      | TokenType.IDENT => parseExprLoop fuel p (parseIdent p) prec
      | TokenType.NUM => parseExprLoop fuel p (parseNumLit p) prec
      | TokenType.MINUS =>
          let (p1, left) := parsePrefixExpr fuel p
          parseExprLoop fuel p1 left prec
      | TokenType.EXC =>
          let (p1, left) := parsePrefixExpr fuel p
          parseExprLoop fuel p1 left prec
      | TokenType.TRUE => parseExprLoop fuel p (parseBool p) prec
      | TokenType.FALSE => parseExprLoop fuel p (parseBool p) prec
      | TokenType.LPAREN =>
          let (p1, left) := parseGroupedExpr fuel p
          parseExprLoop fuel p1 left prec
      | TokenType.IF =>
          let (p1, left) := parseIfExpr fuel p
          parseExprLoop fuel p1 left prec
      | TokenType.WHILE =>
          let (p1, left) := parseWhileExpr fuel p
          parseExprLoop fuel p1 left prec
      | TokenType.EKTI =>
          let (p1, left) := parseFunc fuel p
          parseExprLoop fuel p1 left prec
      | TokenType.STRING => parseExprLoop fuel p (parseStringLit p) prec
      | TokenType.LS_BRACKET =>
          let (p1, left) := parseArrLit fuel p
          parseExprLoop fuel p1 left prec
      | TokenType.LBRACE =>
          let (p1, left) := parseHashLit fuel p
          parseExprLoop fuel p1 left prec
      | _ => (noPrefixErrRec p p.curTok, none)

termination_by structural fuel => fuel

/-- The loop of `parseExpr` (part_000:451): while the peek is not a semicolon
and binds tighter than the surrounding precedence, feed the left expression
into the registered infix parser (part_000:86); an unregistered peek ends the
loop. -/
def parseExprLoop : Nat → PState → Option Expr → Nat → PState × Option Expr
  | 0, p, left, _ => (p, left)
  | fuel + 1, p, left, prec =>
      if !(p.peekTok.ttype == TokenType.SEMICOLON) && prec < peekPrec p then
        match p.peekTok.ttype with
        | TokenType.PLUS => parseExprLoopInfix fuel p left prec
        | TokenType.MINUS => parseExprLoopInfix fuel p left prec
        | TokenType.DIV => parseExprLoopInfix fuel p left prec
        | TokenType.MUL => parseExprLoopInfix fuel p left prec
        | TokenType.EQEQ => parseExprLoopInfix fuel p left prec
        | TokenType.NOT_EQ => parseExprLoopInfix fuel p left prec
        | TokenType.LT => parseExprLoopInfix fuel p left prec
        | TokenType.GTE => parseExprLoopInfix fuel p left prec
        | TokenType.GT => parseExprLoopInfix fuel p left prec
        | TokenType.LTE => parseExprLoopInfix fuel p left prec
        | TokenType.LPAREN =>
            let p1 := pnext p
            let (p2, left2) := parseCallExpr fuel p1 left
            parseExprLoop fuel p2 left2 prec
        | TokenType.LS_BRACKET =>
            let p1 := pnext p
            let (p2, left2) := parseIndexExpr fuel p1 left
            parseExprLoop fuel p2 left2 prec
        | _ => (p, left)
      else (p, left)

termination_by structural fuel => fuel

/-- One binary-operator step of the loop: advance onto the operator and run
`parseInfixExpr` (part_000:518). -/
def parseExprLoopInfix : Nat → PState → Option Expr → Nat → PState × Option Expr
  | 0, p, left, _ => (p, left)
  | fuel + 1, p, left, prec =>
      let p1 := pnext p
      let tok := p1.curTok
      let iprec := curPrec p1
      let p2 := pnext p1
      let (p3, right) := parseExpr fuel p2 iprec
      parseExprLoop fuel p3 (some (Expr.infixE tok tok.literal left right)) prec

termination_by structural fuel => fuel

/-- part_000:505 `parsePrefixExpr`. -/
def parsePrefixExpr : Nat → PState → PState × Option Expr
  | 0, p => (p, none)
  | fuel + 1, p =>
      let tok := p.curTok
      let p1 := pnext p
      let (p2, right) := parseExpr fuel p1 PREFIX
      (p2, some (Expr.prefixE tok tok.literal right))

termination_by structural fuel => fuel

/-- part_000:430 `parseGroupedExpr`. -/
def parseGroupedExpr : Nat → PState → PState × Option Expr
  | 0, p => (p, none)
  | fuel + 1, p =>
      let p1 := pnext p
      let (p2, exp) := parseExpr fuel p1 LOWEST
      match peekAdv p2 TokenType.RPAREN with
      | (p3, true) => (p3, exp)
      | (p3, false) => (p3, none)

termination_by structural fuel => fuel

/-- part_000:245 `parseCallExpr` (current token is the call's LPAREN). -/
def parseCallExpr : Nat → PState → Option Expr → PState × Option Expr
  | 0, p, _ => (p, none)
  | fuel + 1, p, function =>
      let tok := p.curTok
      let (p1, args) := parseExprList fuel p TokenType.RPAREN
      (p1, some (Expr.callE tok function args))

termination_by structural fuel => fuel

/-- part_000:138 `parseIndexExpr` (current token is the LS_BRACKET). -/
def parseIndexExpr : Nat → PState → Option Expr → PState × Option Expr
  | 0, p, _ => (p, none)
  | fuel + 1, p, l =>
      let tok := p.curTok
      let p1 := pnext p
      let (p2, idx) := parseExpr fuel p1 LOWEST
      match peekAdv p2 TokenType.RS_BRACKET with
      | (p3, true) => (p3, some (Expr.indexE tok l idx))
      | (p3, false) => (p3, none)

termination_by structural fuel => fuel

/-- part_000:152 `parseArrLit`. -/
def parseArrLit : Nat → PState → PState × Option Expr
  | 0, p => (p, none)
  | fuel + 1, p =>
      let tok := p.curTok
      let (p1, elms) := parseExprList fuel p TokenType.RS_BRACKET
      (p1, some (Expr.arrLit tok elms))

termination_by structural fuel => fuel

/-- part_000:160 `parseExprList`: a comma-separated expression list up to the
end token; an expectation failure discards the list (Go returns the nil
slice, which len/range treat as this empty list). -/
def parseExprList : Nat → PState → TokenType → PState × List (Option Expr)
  | 0, p, _ => (p, [])
  | fuel + 1, p, endtok =>
      if p.peekTok.ttype == endtok then (pnext p, [])
      else
        let p1 := pnext p
        let (p2, e) := parseExpr fuel p1 LOWEST
        parseExprListLoop fuel p2 endtok [e]

termination_by structural fuel => fuel

/-- The comma loop of `parseExprList` (part_000:172). -/
def parseExprListLoop : Nat → PState → TokenType → List (Option Expr) →
    PState × List (Option Expr)
  | 0, p, _, _ => (p, [])
  | fuel + 1, p, endtok, acc =>
      if p.peekTok.ttype == TokenType.COMMA then
        let p1 := pnext (pnext p)
        let (p2, e) := parseExpr fuel p1 LOWEST
        parseExprListLoop fuel p2 endtok (acc ++ [e])
      else
        match peekAdv p endtok with
        | (p2, true) => (p2, acc)
        | (p2, false) => (p2, [])

termination_by structural fuel => fuel

/-- part_000:107 `parseHashLit`. -/
def parseHashLit : Nat → PState → PState × Option Expr
  | 0, p => (p, none)
  | fuel + 1, p => parseHashLitLoop fuel p p.curTok []

termination_by structural fuel => fuel

/-- The pair loop of `parseHashLit` (part_000:112): parse key, expect colon,
parse value, store the pair, then demand either the closing brace in peek or
a consumed comma; finish by consuming the closing brace. -/
def parseHashLitLoop : Nat → PState → Token → List (Option Expr × Option Expr) →
    PState × Option Expr
  | 0, p, _, _ => (p, none)
  | fuel + 1, p, tok, acc =>
      if !(p.peekTok.ttype == TokenType.RBRACE) then
        let p1 := pnext p
        let (p2, k) := parseExpr fuel p1 LOWEST
        match peekAdv p2 TokenType.COLON with
        | (p3, false) => (p3, none)
        | (p3, true) =>
            let p4 := pnext p3
            let (p5, v) := parseExpr fuel p4 LOWEST
            let acc1 := hashPairsInsert acc k v
            if p5.peekTok.ttype == TokenType.RBRACE then
              parseHashLitLoop fuel p5 tok acc1
            else
              match peekAdv p5 TokenType.COMMA with
              | (p6, true) => parseHashLitLoop fuel p6 tok acc1
              | (p6, false) => (p6, none)
      else
        match peekAdv p TokenType.RBRACE with
        | (p1, true) => (p1, some (Expr.hashLit tok acc))
        | (p1, false) => (p1, none)

termination_by structural fuel => fuel

/-- part_000:190 `parseFunc` (`ekti kaj ( params ) body sesh`): expects the
FUNC keyword (whose token the literal carries), the parameter list and an
END-terminated block. A nil parameter slice acts as the empty list. -/
def parseFunc : Nat → PState → PState × Option Expr
  | 0, p => (p, none)
  | fuel + 1, p =>
      match peekAdv p TokenType.FUNC with
      | (p1, false) => (p1, none)
      | (p1, true) =>
          let tok := p1.curTok
          match peekAdv p1 TokenType.LPAREN with
          | (p2, false) => (p2, none)
          | (p2, true) =>
              let (p3, params) := parseFuncParams p2
              let (p4, body) := parseBlockStmt fuel p3 TokenType.END
              (p4, some (Expr.funcLit tok (params.getD []) (some body)))

termination_by structural fuel => fuel

/-- part_000:592 `parseWhileExpr` (`jotokhon ( cond ) body sesh`). -/
def parseWhileExpr : Nat → PState → PState × Option Expr
  | 0, p => (p, none)
  | fuel + 1, p =>
      let tok := p.curTok
      match peekAdv p TokenType.LPAREN with
      | (p1, false) => (p1, none)
      | (p1, true) =>
          let p2 := pnext p1
          let (p3, cond) := parseExpr fuel p2 LOWEST
          match peekAdv p3 TokenType.RPAREN with
          | (p4, false) => (p4, none)
          | (p4, true) =>
              let (p5, body) := parseBlockStmt fuel p4 TokenType.END
              (p5, some (Expr.whileE tok cond (some body)))

termination_by structural fuel => fuel

/-- part_000:535 `parseIfExpr` (`jodi ( cond ) tahole … nahole … sesh`):
after the condition and TAHOLE, statements are collected into the true block
until ELSE or EOF; then ONE token is stepped over unconditionally and, if the
current token is then neither END nor EOF, exactly one statement is parsed
into the else block (an `if`, not a loop), followed by one more step. Both
blocks always exist on the returned node. -/
def parseIfExpr : Nat → PState → PState × Option Expr
  | 0, p => (p, none)
  | fuel + 1, p =>
      let tok := p.curTok
      match peekAdv p TokenType.LPAREN with
      | (p1, false) => (p1, none)
      | (p1, true) =>
          let p2 := pnext p1
          let (p3, cond) := parseExpr fuel p2 LOWEST
          match peekAdv p3 TokenType.RPAREN with
          | (p4, false) => (p4, none)
          | (p4, true) =>
              match peekAdv p4 TokenType.TAHOLE with
              | (p5, false) => (p5, none)
              | (p5, true) =>
                  let p6 := pnext p5
                  let (p7, tb) := parseIfTrueLoop fuel p6 []
                  let p8 := pnext p7
                  if !(p8.curTok.ttype == TokenType.END) &&
                     !(p8.curTok.ttype == TokenType.EOF) then
                    let (p9, s) := parseStmt fuel p8
                    let eb := match s with | some stmt => [stmt] | none => []
                    (pnext p9, some (Expr.ifE tok cond (some tb) (some eb)))
                  else (p8, some (Expr.ifE tok cond (some tb) (some [])))

termination_by structural fuel => fuel

/-- The true-block loop of `parseIfExpr` (part_000:556): collect statements
until the current token is ELSE or EOF (note: END does not stop it). -/
def parseIfTrueLoop : Nat → PState → List Stmt → PState × List Stmt
  | 0, p, acc => (p, acc)
  | fuel + 1, p, acc =>
      if !(p.curTok.ttype == TokenType.ELSE) && !(p.curTok.ttype == TokenType.EOF) then
        let (p1, s) := parseStmt fuel p
        let acc1 := match s with | some stmt => acc ++ [stmt] | none => acc
        parseIfTrueLoop fuel (pnext p1) acc1
      else (p, acc)

termination_by structural fuel => fuel

/-- part_000:617 `parseBlockStmt`: step in, then collect statements until the
end token or EOF. -/
def parseBlockStmt : Nat → PState → TokenType → PState × List Stmt
  | 0, p, _ => (p, [])
  | fuel + 1, p, eT => parseBlockLoop fuel (pnext p) eT []

termination_by structural fuel => fuel

/-- The loop of `parseBlockStmt` (part_000:626). -/
def parseBlockLoop : Nat → PState → TokenType → List Stmt → PState × List Stmt
  | 0, p, _, acc => (p, acc)
  | fuel + 1, p, eT, acc =>
      if !(p.curTok.ttype == eT) && !(p.curTok.ttype == TokenType.EOF) then
        let (p1, s) := parseStmt fuel p
        let acc1 := match s with | some stmt => acc ++ [stmt] | none => acc
        parseBlockLoop fuel (pnext p1) eT acc1
      else (p, acc)

termination_by structural fuel => fuel

/-- part_000:296 `parseStmt`: statement dispatch on the current token. -/
def parseStmt : Nat → PState → PState × Option Stmt
  | 0, p => (p, none)
  | fuel + 1, p =>
      match p.curTok.ttype with
      | TokenType.LET => parseLetStmt fuel p
      | TokenType.RETURN => parseReturnStmt fuel p
      | TokenType.INCLUDE => parseIncludeStmt fuel p
      | TokenType.COMMENT => (p, parseComment p)
      | TokenType.SHOW => parseShowStmt fuel p
      | _ => parseExprStmt fuel p

termination_by structural fuel => fuel

/-- part_000:366 `parseLetStmt`: LET, an identifier, `=`, the value at
LOWEST, then every trailing semicolon. -/
def parseLetStmt : Nat → PState → PState × Option Stmt
  | 0, p => (p, none)
  | fuel + 1, p =>
      let tok := p.curTok
      match peekAdv p TokenType.IDENT with
      | (p1, false) => (p1, none)
      | (p1, true) =>
          let nameTok := p1.curTok
          match peekAdv p1 TokenType.EQ with
          | (p2, false) => (p2, none)
          | (p2, true) =>
              let p3 := pnext p2
              let (p4, value) := parseExpr fuel p3 LOWEST
              (skipSemis p4, some (Stmt.letS tok nameTok nameTok.literal value))

termination_by structural fuel => fuel

/-- part_000:320 `parseReturnStmt`. -/
def parseReturnStmt : Nat → PState → PState × Option Stmt
  | 0, p => (p, none)
  | fuel + 1, p =>
      let tok := p.curTok
      let p1 := pnext p
      let (p2, val) := parseExpr fuel p1 LOWEST
      let p3 := if p2.peekTok.ttype == TokenType.SEMICOLON then pnext p2 else p2
      (p3, some (Stmt.retS tok val))

termination_by structural fuel => fuel

/-- part_000:351 `parseIncludeStmt`. -/
def parseIncludeStmt : Nat → PState → PState × Option Stmt
  | 0, p => (p, none)
  | fuel + 1, p =>
      let tok := p.curTok
      let p1 := pnext p
      let (p2, fn) := parseExpr fuel p1 LOWEST
      let p3 := if p2.peekTok.ttype == TokenType.SEMICOLON then pnext p2 else p2
      (p3, some (Stmt.includeS tok fn))

termination_by structural fuel => fuel

/-- part_000:337 `parseShowStmt`: advance past SHOW, then a `)`-terminated
expression list and an optional semicolon. -/
def parseShowStmt : Nat → PState → PState × Option Stmt
  | 0, p => (p, none)
  | fuel + 1, p =>
      let tok := p.curTok
      let p1 := pnext p
      let (p2, vals) := parseExprList fuel p1 TokenType.RPAREN
      let p3 := if p2.peekTok.ttype == TokenType.SEMICOLON then pnext p2 else p2
      (p3, some (Stmt.showS tok vals))

termination_by structural fuel => fuel

/-- part_000:390 `parseExprStmt`. -/
def parseExprStmt : Nat → PState → PState × Option Stmt
  | 0, p => (p, none)
  | fuel + 1, p =>
      let tok := p.curTok
      let (p1, e) := parseExpr fuel p LOWEST
      let p2 := if p1.peekTok.ttype == TokenType.SEMICOLON then pnext p1 else p1
      (p2, some (Stmt.exprS tok e))

termination_by structural fuel => fuel

end

/-- part_000:277 `ParseProg`: statements until EOF; nil statements are
dropped. -/
def parseProgLoop : Nat → PState → List Stmt → PState × List Stmt
  | 0, p, acc => (p, acc)
  | fuel + 1, p, acc =>
      if !(p.curTok.ttype == TokenType.EOF) then
        let (p1, s) := parseStmt fuel p
        let acc1 := match s with | some stmt => acc ++ [stmt] | none => acc
        parseProgLoop fuel (pnext p1) acc1
      else (p, acc)

/-- `ParseProg` from a fresh parser over a token stream. -/
def ParseProg (fuel : Nat) (src : String) (toks : List Token) : PState × List Stmt :=
  parseProgLoop fuel (initParser src toks) []

/-! ## Byte-level model of the error-line formatters

Go strings are byte sequences and `s[:i]` slices bytes; the claims about the
error-line formatters are about those indexes, so this model works on byte
lists directly. -/

/-- A Go string as its bytes. -/
abbrev GoStr := List Nat

/-- Go `s[:i]` on a byte string: panics outside 0 ≤ i ≤ len. -/
def goSliceTo (s : GoStr) (i : Int) : Option GoStr :=
  if 0 ≤ i ∧ i ≤ (s.length : Int) then some (s.take i.toNat) else none

/-- Go `s[i:]` on a byte string: panics outside 0 ≤ i ≤ len. -/
def goSliceFrom (s : GoStr) (i : Int) : Option GoStr :=
  if 0 ≤ i ∧ i ≤ (s.length : Int) then some (s.drop i.toNat) else none

/-- The bytes of " <-- ". -/
def arrowIn : GoStr := [32, 60, 45, 45, 32]

/-- The bytes of " --> ". -/
def arrowOut : GoStr := [32, 45, 45, 62, 32]

/-- The bytes of "| ". -/
def barSpace : GoStr := [124, 32]

/-- The bytes of `strconv.Itoa n`. -/
def intDigits (n : Int) : GoStr := (toString n).toList.map Char.toNat

/-- The token data the error-line formatters read: literal bytes, line
number and column. -/
structure TokB where
  literal : GoStr
  lineNo : Int
  column : Int

/-- The slicing core shared verbatim by both MakeErrorLine bodies
(part_000:413-415 and evaluator.go:60-63): cut the line at the right index,
splice the inward arrow, cut the marked line at the left index, splice the
outward arrow, and prefix the line number and bar. Each cut panics out of
bounds. -/
def spliceMarks (lineNo l r : Int) (line : GoStr) : Option GoStr :=
  match goSliceTo line r, goSliceFrom line r with
  | some a, some b =>
      let newL := a ++ arrowIn ++ b
      match goSliceTo newL l, goSliceFrom newL l with
      | some c, some d =>
          some (intDigits lineNo ++ barSpace ++ (c ++ arrowOut ++ d))
      | _, _ => none
  | _, _ => none

/-- src/unnamed/part_000:403 `MakeErrorLine` (parser side), byte-level:
left index is column-1, right index is column+len(literal)-1 or left+1 for
literals of length at most 1; the line is sliced at those indexes with no
bounds checks and no clamping. -/
def makeErrorLinePBytes (t : TokB) (line : GoStr) : Option GoStr :=
  let lIndex : Int := t.column - 1
  let rIndex : Int :=
    if t.literal.length ≤ 1 then lIndex + 1
    else t.column + (t.literal.length : Int) - 1
  spliceMarks t.lineNo lIndex rIndex line

/-- `strings.Split(src, "\n")` on bytes. -/
def splitLinesB : GoStr → List GoStr
  | [] => [[]]
  | b :: rest =>
      let r := splitLinesB rest
      if b = 10 then [] :: r
      else
        match r with
        | [] => [[b]]
        | h :: t => (b :: h) :: t

/-- src/evaluator/evaluator.go:32 `GetLine`, byte-level: index the split
lines by lineNo-1 with no bounds check. -/
def getLineEvB (src : GoStr) (n : Int) : Option GoStr :=
  if 0 ≤ n - 1 then (splitLinesB src)[(n - 1).toNat]? else none

/-- src/evaluator/evaluator.go:36 `MakeErrorLine` (evaluator side),
byte-level: returns "" for virtual tokens (lineNo ≤ 0); fetches the line
through GetLine (panicking on an out-of-range line number); in hint mode the
left index is clamped at 0 before the right index is derived from it. -/
def makeErrorLineEvB (src : GoStr) (t : TokB) (showHint : Bool) : Option GoStr :=
  if t.lineNo ≤ 0 then some []
  else
    match getLineEvB src t.lineNo with
    | none => none
    | some xLine =>
        if showHint then
          let lI0 : Int := t.column - 1
          let lIndex : Int := if lI0 < 0 then 0 else lI0
          let rIndex : Int :=
            if t.literal.length ≤ 1 then lIndex + 1
            else t.column + (t.literal.length : Int) - 1
          spliceMarks t.lineNo lIndex rIndex xLine
        else some (intDigits t.lineNo ++ barSpace ++ xLine)

/-! ## The if/else grammar as the claim states it

For the refinement comparison of claim C5 only: this second definition
follows the claim's words — "parse statements into the true block until ELSE
or EOF; if ELSE is present, parse statements into the else block until END
or EOF" — sharing the real parser's statement machinery. -/

/-- Claim C5's description of `parseIfExpr`: identical prelude, then a
statement LOOP into the else block when ELSE is present. -/
def parseIfExprClaim : Nat → PState → PState × Option Expr
  | 0, p => (p, none)
  | fuel + 1, p =>
      let tok := p.curTok
      match peekAdv p TokenType.LPAREN with
      | (p1, false) => (p1, none)
      | (p1, true) =>
          let p2 := pnext p1
          let (p3, cond) := parseExpr fuel p2 LOWEST
          match peekAdv p3 TokenType.RPAREN with
          | (p4, false) => (p4, none)
          | (p4, true) =>
              match peekAdv p4 TokenType.TAHOLE with
              | (p5, false) => (p5, none)
              | (p5, true) =>
                  let p6 := pnext p5
                  let (p7, tb) := parseIfTrueLoop fuel p6 []
                  if p7.curTok.ttype == TokenType.ELSE then
                    let p8 := pnext p7
                    let (p9, eb) := parseBlockLoop fuel p8 TokenType.END []
                    (p9, some (Expr.ifE tok cond (some tb) (some eb)))
                  else (p7, some (Expr.ifE tok cond (some tb) (some [])))

/-! ## Concrete fixtures

AST nodes built directly (as the REPL would get them from the parser), all
carrying the virtual zero token, evaluated against an empty builtin registry,
an empty include oracle, a fresh store with one empty frame, and an empty
print buffer. Fuel 99 is ample for each program. -/

/-- Shorthand: an integer number literal node. -/
def eNum (n : Int) : Expr := Expr.numberLit zeroTok ⟨NumValue.intV n, true⟩ true

/-- Shorthand: a string literal node. -/
def eStr (s : String) : Expr := Expr.stringLit zeroTok s

/-- Shorthand: an identifier node. -/
def eId (s : String) : Expr := Expr.ident zeroTok s

/-- Shorthand: a boolean literal node. -/
def eBool (b : Bool) : Expr := Expr.boolLit zeroTok b

/-- The expression `1 + "x"`, whose evaluation is a type-mismatch Error. -/
def eBad : Expr := Expr.infixE zeroTok "+" (some (eNum 1)) (some (eStr "x"))

/-- The evaluation context of the concrete runs. -/
def ctxNone : Ctx := ⟨"", fun _ => false, fun _ _ => none, fun _ => FileEntry.notExist, id⟩

/-- The initial state: one empty frame, empty buffer. -/
def stInit : St := ⟨[⟨[], none⟩], ""⟩

/-- Run a program the way the host runs `Eval` on a parsed `ast.Program`. -/
def runProg (p : List Stmt) : Option (St × OObj) := EvalProgram ctxNone 99 p 0 stInit

/-- The object result of a run (some none is Go nil). -/
def resOf (r : Option (St × OObj)) : Option OObj := r.map Prod.snd

/-- The print buffer after a run. -/
def buffOf (r : Option (St × OObj)) : Option String := r.map (fun x => x.1.buff)

/-- The message of a run that produced an Error object. -/
def errMsgOf (r : Option (St × OObj)) : Option String :=
  match r with
  | some (_, some (Obj.error m)) => some m
  | _ => none

/-- Claim C1's failing input: the index expression `(1 + "x")[0]`. -/
def progC1 : List Stmt :=
  [Stmt.exprS zeroTok (some (Expr.indexE zeroTok (some eBad) (some (eNum 0))))]

/-- Claim C2's failing input: `dekhao(1 + "x");`. -/
def progC2 : List Stmt := [Stmt.showS zeroTok [some eBad]]

/-! ## Claim C1 -/

/-- Claim C1 (code bug): the operand `1 + "x"` of the index expression
`(1 + "x")[0]` evaluates to a type-mismatch Error, yet the whole index
expression evaluates to the absent (Go nil) result — `Eval`'s IndexExpr case
(src/evaluator/evaluator.go:150) returns nil instead of the error it just
detected, violating error virality at exactly this operation. -/
theorem c1_index_error_yields_nil :
    errMsgOf (runProg [Stmt.exprS zeroTok (some eBad)]) =
      some "\nType mismatch:  NUM + STRING "
    ∧ resOf (runProg progC1) = some none := by
  exact ⟨rfl, rfl⟩

/-! ## Claim C2 -/

/-- Claim C2 (code bug): evaluating `dekhao(1 + "x");` does NOT short-circuit
on the argument's Error — `evalShowStmt` (src/evaluator/evaluator.go:207)
never checks the argument list for the error singleton `evalExprs` hands it —
so the statement's result is the NULL singleton rather than the Error, and
the Error's rendering (which does contain "Type mismatch") is appended to the
print buffer with a newline. -/
theorem c2_show_error_not_short_circuited :
    resOf (runProg progC2) = some (some Obj.null)
    ∧ buffOf (runProg progC2) = some ("ERROR: \nType mismatch:  NUM + STRING \n") := by
  exact ⟨rfl, rfl⟩

/-! ## Claim C4 -/

/-- Setting then reading the same name in a frame yields the written value. -/
theorem Frame.getB_setB (f : Frame) (n : String) (v : OObj) :
    (f.setB n v).getB n = some v := by
  show Frame.getB.go n (Frame.setB.go n v f.bindings) = some v
  induction f.bindings with
  | nil => simp [Frame.setB.go, Frame.getB.go]
  | cons hd tl ih =>
      by_cases h : hd.1 = n
      · cases hd
        simp_all [Frame.setB.go, Frame.getB.go]
      · cases hd
        simp_all [Frame.setB.go, Frame.getB.go]

/-- Claim C4 counterexample: evaluating the program `dhori x = 1;` produces
the ABSENT result (Go nil), not the Null object — `Eval`'s LetStmt case
(src/evaluator/evaluator.go:111) binds the name and then falls through to
`return nil` (line 174), so evaluation results can be absent. -/
theorem c4_let_counterexample :
    resOf (runProg [Stmt.letS zeroTok zeroTok "x" (some (eNum 1))]) = some none := by
  exact rfl

/-- Claim C4 amended: a let statement whose value evaluates without error
binds the name in the current environment (the innermost frame) and returns
the ABSENT (Go nil) result, not the Null object; in general evaluation
results may be absent (let statements, include statements, comments and the
error-left index expressions all fall through to `return nil`). -/
theorem c4_let_amended (ctx : Ctx) (fuel : Nat) (tok ntok : Token) (name : String)
    (value : Option Expr) (env : FrameId) (st st1 : St) (val : OObj)
    (h1 : evalOE ctx fuel value env st = some (st1, val))
    (h2 : isErr val = false)
    (h3 : env < st1.store.length) :
    evalS ctx (fuel + 1) (Stmt.letS tok ntok name value) env st =
      some ({ st1 with store := envSet st1.store env name val }, none)
    ∧ ((envSet st1.store env name val)[env]?).map (fun f => f.getB name) =
        some (some val) := by
  constructor
  · simp [evalS, h1, h2]
  · have hf : st1.store[env]? = some st1.store[env] := List.getElem?_eq_getElem h3
    simp [envSet, hf, List.getElem?_set_self h3, Frame.getB_setB]

/-- Witness for c4_let_amended at `dhori x = 1;` in the initial state. -/
theorem c4_let_amended_witness :
    evalS ctxNone (5 + 1) (Stmt.letS zeroTok zeroTok "x" (some (eNum 1))) 0 stInit =
      some ({ stInit with
        store := envSet stInit.store 0 "x"
          (some (Obj.number ⟨NumValue.intV 1, true⟩ true zeroTok)) }, none)
    ∧ ((envSet stInit.store 0 "x"
          (some (Obj.number ⟨NumValue.intV 1, true⟩ true zeroTok)))[0]?).map
        (fun f => f.getB "x") =
        some (some (some (Obj.number ⟨NumValue.intV 1, true⟩ true zeroTok))) :=
  c4_let_amended ctxNone 5 zeroTok zeroTok "x" (some (eNum 1)) 0 stInit stInit
    (some (Obj.number ⟨NumValue.intV 1, true⟩ true zeroTok)) rfl rfl (by decide)

/-! ## Claim C3 -/

/-- The loop body `dhori i = i + 1; jodi (i == 1) tahole (1 + "x") nahole 5
sesh` — it evaluates to a type-mismatch Error on the iteration where i
becomes 1 and to the number 5 afterwards. -/
def whileBody : List Stmt :=
  [Stmt.letS zeroTok zeroTok "i" (some (Expr.infixE zeroTok "+" (some (eId "i")) (some (eNum 1)))),
   Stmt.exprS zeroTok (some (Expr.ifE zeroTok
      (some (Expr.infixE zeroTok "==" (some (eId "i")) (some (eNum 1))))
      (some [Stmt.exprS zeroTok (some eBad)])
      (some [Stmt.exprS zeroTok (some (eNum 5))])))]

/-- `dhori i = 0; jotokhon (i < 2) <whileBody> sesh` -/
def progC3 : List Stmt :=
  [Stmt.letS zeroTok zeroTok "i" (some (eNum 0)),
   Stmt.exprS zeroTok (some (Expr.whileE zeroTok
      (some (Expr.infixE zeroTok "<" (some (eId "i")) (some (eNum 2))))
      (some whileBody)))]

/-- A store binding i to the number 0 in a single frame. -/
def stI0 : St := ⟨[⟨[("i", some (Obj.number ⟨NumValue.intV 0, true⟩ true zeroTok))], none⟩], ""⟩

/-- Claim C3 counterexample: (1) a while expression whose loop never runs
evaluates to the ABSENT result (Go nil), not Null (`var result object.Obj`
stays nil in src/evaluator/evaluator.go:481); (2) the loop body of progC3
evaluates to a type-mismatch Error on its first iteration (shown against the
i = 0 store), yet the whole while program evaluates to the number 5 — the
body's Error did NOT short-circuit the loop; it was discarded when the next
iteration succeeded, because the loop at evaluator.go:486 re-checks only
truthiness and never isErr. -/
theorem c3_while_counterexample :
    resOf (runProg [Stmt.exprS zeroTok
        (some (Expr.whileE zeroTok (some (eBool false))
          (some [Stmt.exprS zeroTok (some (eNum 1))])))]) = some none
    ∧ errMsgOf (evalBlockO ctxNone 99 (some whileBody) 0 stI0) =
        some "\nType mismatch:  NUM + STRING "
    ∧ resOf (runProg progC3) =
        some (some (Obj.number ⟨NumValue.intV 5, true⟩ true zeroTok)) := by
  exact ⟨rfl, rfl, rfl⟩

/-- The while loop returns the recorded result as soon as the condition
value is not truthy. -/
theorem evalWhileLoop_exit (ctx : Ctx) (fuel : Nat) (cond : Option Expr)
    (body : Option (List Stmt)) (env : FrameId) (c r : OObj) (st : St)
    (h : isTruthy c = false) :
    evalWhileLoop ctx fuel cond body env c r st = some (st, r) := by
  unfold evalWhileLoop
  simp [h]

/-- Claim C3 amended: the condition is evaluated once; an Error there is
returned. While the condition value is truthy the body is evaluated (its
value recorded) and the condition re-evaluated, with NO error check on
either: an Error condition value is itself truthy, so the loop keeps
iterating (third conjunct), and a body Error is simply the recorded value,
overwritten by later iterations. When the condition value stops being truthy
the result is the last body value — or the ABSENT (Go nil) result, not Null,
if the body never ran (second conjunct). -/
theorem c3_while_amended (ctx : Ctx) (fuel : Nat) (tok : Token) (cond : Option Expr)
    (body : Option (List Stmt)) (env : FrameId) (st st1 : St) (c : OObj)
    (h1 : evalOE ctx fuel cond env st = some (st1, c)) :
    (isErr c = true → evalE ctx (fuel + 1) (Expr.whileE tok cond body) env st = some (st1, c))
    ∧ (isTruthy c = false →
        evalE ctx (fuel + 1) (Expr.whileE tok cond body) env st = some (st1, none))
    ∧ (∀ (m : String) (r : OObj) (st2 : St),
        evalWhileLoop ctx (fuel + 1) cond body env (some (Obj.error m)) r st2 =
          (do
            let (st3, r2) ← evalBlockO ctx fuel body env st2
            let (st4, c2) ← evalOE ctx fuel cond env st3
            evalWhileLoop ctx fuel cond body env c2 r2 st4)) := by
  refine ⟨fun he => ?_, fun ht => ?_, fun m r st2 => ?_⟩
  · simp [evalE, h1, he]
  · have he : isErr c = false := by
      cases c with
      | none => rfl
      | some o => cases o <;> simp_all [isErr, isTruthy, Obj.type]
    simp [evalE, h1, he, ht, evalWhileLoop_exit]
  · simp [evalWhileLoop, isTruthy]

/-- Witness for c3_while_amended at the never-running loop
`jotokhon (mittha) 1; sesh` in the initial state. -/
theorem c3_while_amended_witness :
    (isErr (some (getBoolObj false)) = true →
      evalE ctxNone (9 + 1) (Expr.whileE zeroTok (some (eBool false))
        (some [Stmt.exprS zeroTok (some (eNum 1))])) 0 stInit =
          some (stInit, some (getBoolObj false)))
    ∧ (isTruthy (some (getBoolObj false)) = false →
        evalE ctxNone (9 + 1) (Expr.whileE zeroTok (some (eBool false))
          (some [Stmt.exprS zeroTok (some (eNum 1))])) 0 stInit = some (stInit, none))
    ∧ (∀ (m : String) (r : OObj) (st2 : St),
        evalWhileLoop ctxNone (9 + 1) (some (eBool false))
            (some [Stmt.exprS zeroTok (some (eNum 1))]) 0 (some (Obj.error m)) r st2 =
          (do
            let (st3, r2) ← evalBlockO ctxNone 9 (some [Stmt.exprS zeroTok (some (eNum 1))]) 0 st2
            let (st4, c2) ← evalOE ctxNone 9 (some (eBool false)) 0 st3
            evalWhileLoop ctxNone 9 (some (eBool false))
              (some [Stmt.exprS zeroTok (some (eNum 1))]) 0 c2 r2 st4)) :=
  c3_while_amended ctxNone 9 zeroTok (some (eBool false))
    (some [Stmt.exprS zeroTok (some (eNum 1))]) 0 stInit stInit
    (some (getBoolObj false)) rfl

/-! ## Claim C5 -/

/-- The true block of a parsed if expression. -/
def trueStmtsOf : Option Expr → Option (List Stmt)
  | some (Expr.ifE _ _ tb _) => tb
  | _ => none

/-- The else block of a parsed if expression. -/
def elseStmtsOf : Option Expr → Option (List Stmt)
  | some (Expr.ifE _ _ _ eb) => eb
  | _ => none

/-- The number of statements in the else block (0 when absent or not an if). -/
def elseLenO : Option Expr → Nat
  | some (Expr.ifE _ _ _ (some eb)) => eb.length
  | _ => 0

/-- The token stream of `jodi ( sotto ) tahole nahole 1 ; 2 ; sesh`,
positioned the way `parseIfExpr` is entered: current = IF, peek = LPAREN. -/
def c5State : PState :=
  ⟨"", ⟨TokenType.IF, "jodi", 1, 1⟩, ⟨TokenType.LPAREN, "(", 1, 6⟩,
   [⟨TokenType.TRUE, "sotto", 1, 7⟩, ⟨TokenType.RPAREN, ")", 1, 12⟩,
    ⟨TokenType.TAHOLE, "tahole", 1, 14⟩, ⟨TokenType.ELSE, "nahole", 1, 21⟩,
    ⟨TokenType.NUM, "1", 1, 28⟩, ⟨TokenType.SEMICOLON, ";", 1, 29⟩,
    ⟨TokenType.NUM, "2", 1, 31⟩, ⟨TokenType.SEMICOLON, ";", 1, 32⟩,
    ⟨TokenType.END, "sesh", 1, 34⟩], []⟩

/-- Claim C5 counterexample: on `jodi (sotto) tahole nahole 1; 2; sesh` the
real `parseIfExpr` (src/unnamed/part_000:535) collects only ONE statement
into the else block, while the claim's description — collect statements into
the else block until END or EOF, formalized by `parseIfExprClaim` — collects
both; the two parses differ at this input. -/
theorem c5_ifelse_counterexample :
    (elseStmtsOf (parseIfExpr 99 c5State).2).map List.length = some 1
    ∧ (elseStmtsOf (parseIfExprClaim 99 c5State).2).map List.length = some 2
    ∧ (parseIfExpr 99 c5State).2 ≠ (parseIfExprClaim 99 c5State).2 := by
  refine ⟨rfl, rfl, fun h => ?_⟩
  have h1 : (elseStmtsOf (parseIfExpr 99 c5State).2).map List.length =
      (elseStmtsOf (parseIfExprClaim 99 c5State).2).map List.length := by rw [h]
  rw [show (elseStmtsOf (parseIfExpr 99 c5State).2).map List.length = some 1 from rfl] at h1
  rw [show (elseStmtsOf (parseIfExprClaim 99 c5State).2).map List.length = some 2 from rfl] at h1
  simp at h1

/-- Claim C5 amended: after the condition and TAHOLE the parser collects
statements into the true block until ELSE or EOF (at the example stream the
true block is empty, the loop having stopped at ELSE); it then advances one
token unconditionally and, when the current token is neither END nor EOF,
parses EXACTLY ONE statement into the else block — so the else block of any
parsed if expression has at most one statement (first conjunct), and at the
example stream it holds only the statement `1;` even though `2;` precedes
the END. When no ELSE is present the else block may be empty. -/
theorem c5_ifelse_amended :
    (∀ (fuel : Nat) (p q : PState) (oe : Option Expr),
        parseIfExpr fuel p = (q, oe) → elseLenO oe ≤ 1)
    ∧ trueStmtsOf (parseIfExpr 99 c5State).2 = some []
    ∧ elseStmtsOf (parseIfExpr 99 c5State).2 =
        some [Stmt.exprS ⟨TokenType.NUM, "1", 1, 28⟩
          (some (Expr.numberLit ⟨TokenType.NUM, "1", 1, 28⟩ ⟨NumValue.intV 1, true⟩ true))] := by
  refine ⟨fun fuel p q oe h => ?_, rfl, rfl⟩
  match fuel with
  | 0 =>
      simp only [parseIfExpr] at h
      injection h with hq hoe
      subst hoe
      simp [elseLenO]
  | fuel + 1 =>
      simp only [parseIfExpr] at h
      repeat' split at h
      all_goals
        injection h with hq hoe
      all_goals subst hoe
      all_goals simp [elseLenO]

/-- Witness for c5_ifelse_amended's universal part at the example stream. -/
theorem c5_ifelse_amended_witness :
    elseLenO (parseIfExpr 99 c5State).2 ≤ 1 :=
  c5_ifelse_amended.1 99 c5State (parseIfExpr 99 c5State).1 (parseIfExpr 99 c5State).2 rfl

/-! ## Claim C9 -/

/-- `dhori xs = [10, 20, 30]; dekhao(xs[5]);` -/
def progC9 : List Stmt :=
  [Stmt.letS zeroTok zeroTok "xs"
     (some (Expr.arrLit zeroTok [some (eNum 10), some (eNum 20), some (eNum 30)])),
   Stmt.showS zeroTok
     [some (Expr.indexE zeroTok (some (eId "xs")) (some (eNum 5)))]]

/-- Claim C9: indexing an Array with a Number coerces the index to an
integer; the result is Null whenever the integer lies outside [0, len) and
the element stored at that position otherwise; and the spec's scenario —
`dhori xs = [10, 20, 30]; dekhao(xs[5]);` — leaves exactly "null\n" in the
print buffer. -/
theorem c9_array_index_spec (elms : List OObj) (id : Number) (i : Int)
    (hi : GetAsInt id.value = (i, true)) :
    ((i < 0 ∨ (elms.length : Int) ≤ i) → evalArrIndexExpr elms id = some Obj.null)
    ∧ (∀ (h2 : i.toNat < elms.length) (_ : 0 ≤ i) (_ : i < (elms.length : Int)),
        evalArrIndexExpr elms id = elms.get ⟨i.toNat, h2⟩)
    ∧ buffOf (runProg progC9) = some "null\n" := by
  refine ⟨fun hout => ?_, fun h2 hn hlt => ?_, rfl⟩
  · have : i < 0 ∨ i > (elms.length : Int) - 1 := by omega
    simp [evalArrIndexExpr, hi, this]
  · have hc : ¬(i < 0 ∨ i > (elms.length : Int) - 1) := by omega
    simp only [evalArrIndexExpr, hi, hc, if_false, if_neg hc, Bool.not_true]
    simp [List.getElem?_eq_getElem h2]

/-- Witness for c9_array_index_spec: indexing [10, 20, 30] at 5 gives Null. -/
theorem c9_array_index_spec_witness :
    evalArrIndexExpr
      [some (Obj.number ⟨NumValue.intV 10, true⟩ true zeroTok),
       some (Obj.number ⟨NumValue.intV 20, true⟩ true zeroTok),
       some (Obj.number ⟨NumValue.intV 30, true⟩ true zeroTok)]
      ⟨NumValue.intV 5, true⟩ = some Obj.null :=
  (c9_array_index_spec _ ⟨NumValue.intV 5, true⟩ 5 rfl).1 (by decide)

/-! ## Claim C8 -/

/-- Setting one name does not disturb another. -/
theorem Frame.getB_setB_ne (f : Frame) (m n : String) (v : OObj) (h : m ≠ n) :
    (f.setB m v).getB n = f.getB n := by
  show Frame.getB.go n (Frame.setB.go m v f.bindings) = Frame.getB.go n f.bindings
  induction f.bindings with
  | nil => simp [Frame.setB.go, Frame.getB.go, h]
  | cons hd tl ih =>
      cases hd with
      | mk n0 v0 =>
          by_cases h0 : n0 = m
          · subst h0
            simp [Frame.setB.go, Frame.getB.go, h]
          · simp [Frame.setB.go, Frame.getB.go, h0, ih]

/-- Folding bindings whose names avoid n leaves n's binding alone. -/
theorem foldl_setB_getB_not_mem (l : List ((Token × String) × OObj)) (f : Frame)
    (n : String) (h : ¬ n ∈ l.map (fun pa => pa.1.2)) :
    (l.foldl (fun (f : Frame) pa => f.setB pa.1.2 pa.2) f).getB n = f.getB n := by
  induction l generalizing f with
  | nil => rfl
  | cons hd tl ih =>
      simp only [List.map_cons, List.mem_cons] at h
      push_neg at h
      simp only [List.foldl_cons]
      rw [ih _ h.2, Frame.getB_setB_ne _ _ _ _ (fun hh => h.1 hh.symm)]

/-- With pairwise distinct names, the fold binds each listed name to its
listed value. -/
theorem foldl_setB_getB_nodup (l : List ((Token × String) × OObj)) (f : Frame)
    (hnd : (l.map (fun pa => pa.1.2)).Nodup) (i : Nat) (hi : i < l.length) :
    (l.foldl (fun (f : Frame) pa => f.setB pa.1.2 pa.2) f).getB (l.get ⟨i, hi⟩).1.2 =
      some (l.get ⟨i, hi⟩).2 := by
  induction l generalizing f i with
  | nil => exact absurd hi (by simp)
  | cons hd tl ih =>
      simp only [List.map_cons, List.nodup_cons] at hnd
      match i with
      | 0 =>
          simp only [List.foldl_cons, List.get]
          rw [foldl_setB_getB_not_mem _ _ _ hnd.1, Frame.getB_setB]
      | j + 1 =>
          simp only [List.foldl_cons, List.get]
          exact ih _ hnd.2 j (by simpa using hi)

/-- The first components of a zip are a prefix of the left list. -/
theorem zip_map_fst_take (l1 : List (Token × String)) (l2 : List OObj) :
    (l1.zip l2).map Prod.fst = l1.take l2.length := by
  induction l1 generalizing l2 with
  | nil => simp
  | cons hd tl ih =>
      cases l2 with
      | nil => simp
      | cons h2 t2 => simp [ih]

/-- Claim C8: calling a Function with a mismatched argument count yields the
arity Error (formatted source line, newline, then exactly the claimed
message, evaluator.go:306 and part_001:27); with matching counts the call
runs the body in a fresh frame enclosed over the function's captured
environment and unwraps a ReturnValue result (second and third conjuncts);
with pairwise distinct parameter names the fresh frame binds each parameter
to the positionally corresponding argument (fourth conjunct). -/
theorem c8_applyFunc_spec (ctx : Ctx) (fuel : Nat) (params : List (Token × String))
    (body : Option (List Stmt)) (fnEnv : FrameId) (ftok caller : Token)
    (args : List OObj) (st : St) :
    (params.length ≠ args.length →
      applyFunc ctx (fuel + 1) (some (Obj.function params body fnEnv ftok)) caller args st =
        (NewErr ctx.source caller false (arityMsg params.length args.length)).map
          (fun e => (st, some e)))
    ∧ (params.length = args.length →
        applyFunc ctx (fuel + 1) (some (Obj.function params body fnEnv ftok)) caller args st =
          (evalBlockO ctx fuel body st.store.length
            { st with store := st.store ++
                [(params.zip args).foldl (fun (f : Frame) pa => f.setB pa.1.2 pa.2) ⟨[], some fnEnv⟩] }).map
            (fun r => (r.1, unwrapRValue r.2)))
    ∧ (∀ v, unwrapRValue (some (Obj.returnValue v)) = v)
    ∧ ((params.map Prod.snd).Nodup →
        ∀ (i : Nat) (hp : i < params.length) (ha : i < args.length),
          ((params.zip args).foldl (fun (f : Frame) pa => f.setB pa.1.2 pa.2)
              ⟨[], some fnEnv⟩).getB (params.get ⟨i, hp⟩).2 =
            some (args.get ⟨i, ha⟩)) := by
  refine ⟨fun hne => ?_, fun heq => ?_, fun v => rfl, fun hnd i hp ha => ?_⟩
  · have hb : (params.length == args.length) = false := by simp [hne]
    simp only [applyFunc, hb, Bool.false_eq_true, if_false]
    cases hN : NewErr ctx.source caller false (arityMsg params.length args.length) <;>
      simp [hN]
  · have hb : (params.length == args.length) = true := by simp [heq]
    simp only [applyFunc, hb, if_true, extendFuncEnv]
    cases hB : evalBlockO ctx fuel body st.store.length
        { st with store := st.store ++
            [(params.zip args).foldl (fun (f : Frame) pa => f.setB pa.1.2 pa.2) ⟨[], some fnEnv⟩] } with
    | none => simp [Option.bind, hB]
    | some r => cases r with
      | mk st2 evd => simp [Option.bind, hB]
  · have hzl : i < (params.zip args).length := by
      simp only [List.length_zip]
      omega
    have hget : (params.zip args).get ⟨i, hzl⟩ = (params.get ⟨i, hp⟩, args.get ⟨i, ha⟩) := by
      simp [List.get_eq_getElem, List.getElem_zip]
    have hnd2 : ((params.zip args).map (fun pa => pa.1.2)).Nodup := by
      have hmap : (params.zip args).map (fun pa => pa.1.2) =
          ((params.map Prod.snd).take args.length) := by
        have h1 : (params.zip args).map (fun pa => pa.1.2) =
            ((params.zip args).map Prod.fst).map Prod.snd := by
          simp [List.map_map]
        rw [h1, zip_map_fst_take, List.map_take]
      rw [hmap]
      exact hnd.sublist (List.take_sublist _ _)
    have := foldl_setB_getB_nodup (params.zip args) ⟨[], some fnEnv⟩ hnd2 i hzl
    rw [hget] at this
    exact this

/-- Witness for c8_applyFunc_spec: calling a one-parameter function with no
arguments yields exactly the arity error. -/
theorem c8_applyFunc_spec_witness :
    applyFunc ctxNone (9 + 1)
        (some (Obj.function [(zeroTok, "a")] (some []) 0 zeroTok)) zeroTok [] stInit =
      (NewErr ctxNone.source zeroTok false (arityMsg 1 0)).map (fun e => (stInit, some e)) :=
  (c8_applyFunc_spec ctxNone 9 [(zeroTok, "a")] (some []) 0 zeroTok zeroTok [] stInit).1
    (by decide)

/-! ## Claim C6 -/

/-- The number object the included file binds to y. -/
def nY : Obj := Obj.number ⟨NumValue.intV 2, true⟩ true zeroTok

/-- The included file's program: `dhori y = 2;`. -/
def progInc : List Stmt := [Stmt.letS zeroTok zeroTok "y" (some (eNum 2))]

/-- The include oracle: one well-parsed file, one file with parse errors, one
unreadable file; everything else does not exist. -/
def fsC6 : String → FileEntry := fun s =>
  if s = "good.pnk" then FileEntry.found false progInc
  else if s = "bad.pnk" then FileEntry.found true progInc
  else if s = "unreadable.pnk" then FileEntry.readErr
  else FileEntry.notExist

/-- Context for the include claims. -/
def ctxC6 : Ctx := ⟨"", fun _ => false, fun _ _ => none, fsC6, id⟩

/-- The store after a successful include of good.pnk from frame env over
store s: the scratch frame enx, the included frame ex holding y, and the
current frame overwritten to an empty frame enclosed over ex. -/
def incStore (s : Store) (env : FrameId) : Store :=
  (s ++ [(⟨[], none⟩ : Frame), ⟨[("y", some nY)], none⟩]).set env ⟨[], some (s.length + 1)⟩

/-- Claim C6: a successful `anoo "good.pnk";` evaluates the included program
in a fresh environment and replaces the current frame by a fresh enclosed
frame whose outer is that environment (first two conjuncts), making the
included top-level binding y visible to subsequent lookups (third) while
subsequent writes land in the fresh frame and never touch the included frame
(fourth); a non-string filename, a missing file, an unreadable file, and a
file with parse errors each return an Error and leave the current frame
unchanged (remaining conjuncts — the failing runs only append fresh frames,
and appending preserves every existing frame). -/
theorem c6_include_spec (fuel : Nat) (env : Nat) (st : St)
    (henv : env < st.store.length) :
    (evalS ctxC6 (fuel + 6) (Stmt.includeS zeroTok (some (eStr "good.pnk"))) env st =
       some (⟨incStore st.store env, st.buff⟩, none))
    ∧ (incStore st.store env)[env]? = some ⟨[], some (st.store.length + 1)⟩
    ∧ envGet (incStore st.store env) (incStore st.store env).length env "y" =
        some (some nY)
    ∧ (∀ (n : String) (v : OObj),
        (envSet (incStore st.store env) env n v)[st.store.length + 1]? =
          (incStore st.store env)[st.store.length + 1]?)
    ∧ (evalS ctxC6 (fuel + 6) (Stmt.includeS zeroTok (some (eNum 7))) env st =
        some (⟨st.store ++ [⟨[], none⟩], st.buff⟩,
          some (Obj.error "\ninclude filename is invalid 7")))
    ∧ (evalS ctxC6 (fuel + 6) (Stmt.includeS zeroTok (some (eStr "missing.pnk"))) env st =
        some (⟨st.store ++ [⟨[], none⟩], st.buff⟩,
          some (Obj.error "\nmissing.pnk include file doesnot exists")))
    ∧ (evalS ctxC6 (fuel + 6) (Stmt.includeS zeroTok (some (eStr "unreadable.pnk"))) env st =
        some (⟨st.store ++ [⟨[], none⟩], st.buff⟩,
          some (Obj.error "\nFailed to read include file unreadable.pnk")))
    ∧ (evalS ctxC6 (fuel + 6) (Stmt.includeS zeroTok (some (eStr "bad.pnk"))) env st =
        some (⟨st.store ++ [⟨[], none⟩, ⟨[("y", some nY)], none⟩], st.buff⟩,
          some (Obj.error "\nInclude file contains parsing errors")))
    ∧ (∀ (l2 : List Frame), (st.store ++ l2)[env]? = st.store[env]?) := by
  have henv2 : env < (st.store ++ [(⟨[], none⟩ : Frame), ⟨[("y", some nY)], none⟩]).length := by
    simp only [List.length_append]
    omega
  have hex : (st.store ++ [(⟨[], none⟩ : Frame), ⟨[("y", some nY)], none⟩])[st.store.length + 1]? =
      some ⟨[("y", some nY)], none⟩ := by
    rw [List.getElem?_append_right
      (show st.store.length ≤ st.store.length + 1 by omega)]
    simp
  have hset : envSet (st.store ++ [(⟨[], none⟩ : Frame), ⟨[], none⟩])
      (st.store.length + 1) "y" (some nY) =
      st.store ++ [⟨[], none⟩, ⟨[("y", some nY)], none⟩] := by
    have hget : (st.store ++ [(⟨[], none⟩ : Frame), ⟨[], none⟩])[st.store.length + 1]? =
        some ⟨[], none⟩ := by
      rw [List.getElem?_append_right
        (show st.store.length ≤ st.store.length + 1 by omega)]
      simp
    rw [envSet]
    simp only [hget]
    rw [List.set_append_right _ _
      (show st.store.length ≤ st.store.length + 1 by omega)]
    simp [Frame.setB, Frame.setB.go]
  have hprog : evalProgStmts ctxC6 (fuel + 4) progInc (st.store.length + 1)
      (St.mk (st.store ++ [⟨[], none⟩, ⟨[], none⟩]) st.buff) none =
      some (St.mk (st.store ++ [⟨[], none⟩, ⟨[("y", some nY)], none⟩]) st.buff, none) := by
    simp only [nY] at hset
    simp only [progInc, evalProgStmts, evalS, evalOE, evalE, isErr, eNum, Obj.type, nY]
    simp [hset]
  have hincG : evalIncludeStmt ctxC6 (fuel + 5) zeroTok (some (eStr "good.pnk")) env st =
      some (St.mk (st.store ++ [⟨[], none⟩, ⟨[("y", some nY)], none⟩]) st.buff,
        (st.store.length + 1, Obj.null)) := by
    simp only [evalIncludeStmt, evalOE, evalE, eStr, allocFrame]
    simp only [Option.bind_eq_bind, Option.some_bind]
    simp only [Obj.type, bne_self_eq_false, Bool.false_eq_true, if_false]
    rw [show ctxC6.fs "good.pnk" = FileEntry.found false progInc from rfl]
    simp only [List.append_assoc, List.cons_append, List.nil_append,
      List.length_append, List.length_cons, List.length_nil]
    simp only [Nat.zero_add]
    rw [hprog]
    simp
  refine ⟨?_, ?_, ?_, ?_, ?_, ?_, ?_, ?_, ?_⟩
  · simp only [evalS, hincG]
    simp [Obj.type, incStore]
  · rw [incStore, List.getElem?_set_self henv2]
  · have hlen : (incStore st.store env).length = (st.store.length + 1) + 1 := by
      rw [incStore]
      simp
    rw [hlen]
    simp only [envGet]
    rw [show (incStore st.store env)[env]? = some ⟨[], some (st.store.length + 1)⟩ from by
      rw [incStore, List.getElem?_set_self henv2]]
    simp only [Frame.getB, Frame.getB.go]
    rw [show (incStore st.store env)[st.store.length + 1]? =
        some ⟨[("y", some nY)], none⟩ from by
      rw [incStore, List.getElem?_set_ne (show env ≠ st.store.length + 1 by omega), hex]]
    simp [Frame.getB, Frame.getB.go]
  · intro n v
    rw [envSet]
    simp only [incStore, List.getElem?_set_self henv2]
    rw [List.getElem?_set_ne (show env ≠ st.store.length + 1 by omega)]
  · exact rfl
  · exact rfl
  · exact rfl
  · have hincB : evalIncludeStmt ctxC6 (fuel + 5) zeroTok (some (eStr "bad.pnk")) env st =
        some (St.mk (st.store ++ [⟨[], none⟩, ⟨[("y", some nY)], none⟩]) st.buff,
          (st.store.length, Obj.error "\nInclude file contains parsing errors")) := by
      simp only [evalIncludeStmt, evalOE, evalE, eStr, allocFrame]
      simp only [Option.bind_eq_bind, Option.some_bind]
      simp only [Obj.type, bne_self_eq_false, Bool.false_eq_true, if_false]
      rw [show ctxC6.fs "bad.pnk" = FileEntry.found true progInc from rfl]
      simp only [List.append_assoc, List.cons_append, List.nil_append,
        List.length_append, List.length_cons, List.length_nil]
      simp only [Nat.zero_add]
      rw [hprog]
      rfl
    simp only [evalS, hincB]
    rfl
  · intro l2
    exact List.getElem?_append_left henv
/-- Witness for c6_include_spec in the initial one-frame state. -/
theorem c6_include_spec_witness :
    evalS ctxC6 (3 + 6) (Stmt.includeS zeroTok (some (eStr "good.pnk"))) 0 stInit =
      some (⟨incStore stInit.store 0, stInit.buff⟩, none) :=
  (c6_include_spec 3 0 stInit (by decide)).1

/-! ## Claim C10 -/

/-- Splicing five marker bytes into a line at any cut point adds five to its
length. -/
theorem lenSplice (line : GoStr) (x : Nat) :
    ((line.take x) ++ arrowIn ++ line.drop x).length = line.length + 5 := by
  simp [arrowIn]
  omega

/-- A Go slice-to succeeds inside [0, len]. -/
theorem goSliceTo_pos {s : GoStr} {i : Int} (h : 0 ≤ i ∧ i ≤ (s.length : Int)) :
    goSliceTo s i = some (s.take i.toNat) := by
  rw [goSliceTo, if_pos h]

/-- A Go slice-to panics outside [0, len]. -/
theorem goSliceTo_neg {s : GoStr} {i : Int} (h : ¬(0 ≤ i ∧ i ≤ (s.length : Int))) :
    goSliceTo s i = none := by
  rw [goSliceTo, if_neg h]

/-- A Go slice-from succeeds inside [0, len]. -/
theorem goSliceFrom_pos {s : GoStr} {i : Int} (h : 0 ≤ i ∧ i ≤ (s.length : Int)) :
    goSliceFrom s i = some (s.drop i.toNat) := by
  rw [goSliceFrom, if_pos h]

/-- A Go slice-from panics outside [0, len]. -/
theorem goSliceFrom_neg {s : GoStr} {i : Int} (h : ¬(0 ≤ i ∧ i ≤ (s.length : Int))) :
    goSliceFrom s i = none := by
  rw [goSliceFrom, if_neg h]

/-- The splice core succeeds exactly when the right cut lies inside the line
and the left cut inside the five-byte-longer marked line. -/
theorem spliceMarks_isSome (n l r : Int) (line : GoStr) :
    (spliceMarks n l r line).isSome = true ↔
      (0 ≤ r ∧ r ≤ (line.length : Int) ∧ 0 ≤ l ∧ l ≤ (line.length : Int) + 5) := by
  by_cases hr : (0 ≤ r ∧ r ≤ (line.length : Int))
  · simp only [spliceMarks, goSliceTo_pos hr, goSliceFrom_pos hr]
    by_cases hL : (0 ≤ l ∧
        l ≤ (((line.take r.toNat ++ arrowIn ++ line.drop r.toNat).length : Nat) : Int))
    · simp only [goSliceTo_pos hL, goSliceFrom_pos hL, Option.isSome_some, true_iff]
      rw [lenSplice] at hL
      push_cast at hL ⊢
      omega
    · simp only [goSliceTo_neg hL, Option.isSome_none, Bool.false_eq_true, false_iff]
      rw [lenSplice] at hL
      push_cast at hL ⊢
      omega
  · simp only [spliceMarks, goSliceTo_neg hr, Option.isSome_none, Bool.false_eq_true,
      false_iff]
    push_cast at hr ⊢
    omega

/-- Claim C10 counterexample: the token with EMPTY literal, column 3, line 1
over the two-byte line "ab" satisfies the claim's precondition — column ≥ 1
and column + len(literal) − 1 = 2 ≤ 2 = len(line) — yet the parser's
MakeErrorLine panics on it (right index column + max(len,1) − 1 = 3 is out of
bounds), so the claimed precondition does not guarantee a formatted string. -/
theorem c10_error_line_counterexample :
    (1 : Int) ≤ 3
    ∧ (3 : Int) + (([] : GoStr).length : Int) - 1 ≤ (([97, 98] : GoStr).length : Int)
    ∧ makeErrorLinePBytes ⟨[], 1, 3⟩ [97, 98] = none := by
  exact ⟨by decide, by decide, rfl⟩

/-- Claim C10 amended: the corrected bound uses max(len(literal), 1) — the
parser's MakeErrorLine returns a formatted string IFF column ≥ 1 and
column + max(len(literal),1) − 1 ≤ len(line), and panics on every token
violating that bound (first conjunct, an iff); the evaluator's MakeErrorLine
returns a string under the same bound whenever the line number is ≥ 1 and
GetLine finds the line (second conjunct) — but unlike the parser's, it does
not panic on every violating token: it clamps a negative left index and
returns "" outright for any token with line number ≤ 0 (third conjunct). -/
theorem c10_error_line_amended :
    (∀ (t : TokB) (line : GoStr),
        (makeErrorLinePBytes t line).isSome = true ↔
          (1 ≤ t.column ∧
            t.column + (max t.literal.length 1 : Nat) - 1 ≤ (line.length : Int)))
    ∧ (∀ (src : GoStr) (t : TokB) (line : GoStr),
        1 ≤ t.lineNo → getLineEvB src t.lineNo = some line →
        1 ≤ t.column →
        t.column + (max t.literal.length 1 : Nat) - 1 ≤ (line.length : Int) →
        (makeErrorLineEvB src t true).isSome = true)
    ∧ (∀ (src : GoStr) (t : TokB) (sh : Bool), t.lineNo ≤ 0 →
        makeErrorLineEvB src t sh = some []) := by
  refine ⟨fun t line => ?_, fun src t line hln hgl hcol hbound => ?_, fun src t sh hln => ?_⟩
  · simp only [makeErrorLinePBytes]
    rw [spliceMarks_isSome]
    by_cases hl : t.literal.length ≤ 1 <;>
      simp only [hl, if_true, if_false] <;>
      push_cast <;>
      omega
  · simp only [makeErrorLineEvB]
    rw [if_neg (show ¬t.lineNo ≤ 0 by omega)]
    simp only [hgl]
    rw [if_neg (show ¬(t.column - 1 < 0) by omega)]
    exact (spliceMarks_isSome _ _ _ _).mpr (by push_cast at hbound ⊢; omega)
  · simp [makeErrorLineEvB, hln]

/-- Witness for c10_error_line_amended: a one-byte literal at column 1 of a
two-byte line formats successfully in both formatters, and a virtual token
yields the empty line. -/
theorem c10_error_line_amended_witness :
    (makeErrorLinePBytes ⟨[120], 1, 1⟩ [97, 98]).isSome = true
    ∧ (makeErrorLineEvB [97, 98] ⟨[120], 1, 1⟩ true).isSome = true
    ∧ makeErrorLineEvB [97, 98] ⟨[120], 0, 1⟩ true = some [] :=
  ⟨(c10_error_line_amended.1 ⟨[120], 1, 1⟩ [97, 98]).mpr (by decide),
   c10_error_line_amended.2.1 [97, 98] ⟨[120], 1, 1⟩ [97, 98] (by decide) rfl
     (by decide) (by decide),
   c10_error_line_amended.2.2 [97, 98] ⟨[120], 0, 1⟩ true (by decide)⟩

/-! ## Claim C7 -/

/-- Hash-literal pairs whose two keys both evaluate to (different) errors:
`1 + "x"` and `sotto + 2`. -/
def hashPairsC7 : List (Option Expr × Option Expr) :=
  [(some (Expr.infixE zeroTok "+" (some (eNum 1)) (some (eStr "x"))), some (eNum 1)),
   (some (Expr.infixE zeroTok "+" (some (eBool true)) (some (eNum 2))), some (eNum 2))]

/-- The program holding one hash literal with those pairs. -/
def progC7 : List Stmt := [Stmt.exprS zeroTok (some (Expr.hashLit zeroTok hashPairsC7))]

/-- The same context as ctxNone except the hash-pair map iterates in the
reverse order — an order Go's randomized map iteration is free to produce. -/
def ctxRev : Ctx := { ctxNone with perm := List.reverse }

/-- Running under the reversed iteration order. -/
def runProgRev (p : List Stmt) : Option (St × OObj) := EvalProgram ctxRev 99 p 0 stInit

/-- Claim C7 counterexample: the same source, evaluated twice from identical
initial states, differing only in the (unspecified, per-run randomized)
iteration order of the hash literal's pair map (`parseHashLit` stores the
pairs in a Go map, part_000:110, and `evalHashLit` ranges over it,
evaluator.go:180): one run returns the NUM+STRING type-mismatch Error, the
other the BOOLEAN+NUM one — two independent runs need not produce identical
result objects. -/
theorem c7_hash_order_counterexample :
    errMsgOf (runProg progC7) = some "\nType mismatch:  NUM + STRING "
    ∧ errMsgOf (runProgRev progC7) = some "\nType mismatch:  BOOLEAN + NUM "
    ∧ runProg progC7 ≠ runProgRev progC7 := by
  refine ⟨rfl, rfl, fun h => ?_⟩
  have h1 : errMsgOf (runProg progC7) = errMsgOf (runProgRev progC7) := by rw [h]
  rw [show errMsgOf (runProg progC7) = some "\nType mismatch:  NUM + STRING " from rfl] at h1
  rw [show errMsgOf (runProgRev progC7) = some "\nType mismatch:  BOOLEAN + NUM " from rfl] at h1
  simp at h1

/-! ### Hash-free, include-free purity

The amended determinism claim holds for programs with no anoo statements and
no hash literals (and an empty builtin registry — the repository's stdlib
shows a time builtin, so nonempty registries are honestly nondeterministic).
`pure` below marks exactly those programs, objects and stores. -/

mutual
/-- An expression with no hash literal and no include anywhere inside. -/
def pureE : Expr → Bool
  | Expr.ident _ _ => true
  | Expr.numberLit _ _ _ => true
  | Expr.stringLit _ _ => true
  | Expr.boolLit _ _ => true
  | Expr.prefixE _ _ r => pureOE r
  | Expr.infixE _ _ l r => pureOE l && pureOE r
  | Expr.ifE _ c tb eb => pureOE c && pureOB tb && pureOB eb
  | Expr.whileE _ c b => pureOE c && pureOB b
  | Expr.funcLit _ _ b => pureOB b
  | Expr.callE _ f args => pureOE f && pureOEL args
  | Expr.arrLit _ elms => pureOEL elms
  | Expr.hashLit _ _ => false
  | Expr.indexE _ l i => pureOE l && pureOE i

/-- Purity of an optional expression child. -/
def pureOE : Option Expr → Bool
  | none => true
  | some e => pureE e

/-- Purity of an optional block. -/
def pureOB : Option (List Stmt) → Bool
  | none => true
  | some l => pureSL l

/-- Purity of a statement list. -/
def pureSL : List Stmt → Bool
  | [] => true
  | s :: rest => pureS s && pureSL rest

/-- A statement with no hash literal and no include anywhere inside. -/
def pureS : Stmt → Bool
  | Stmt.letS _ _ _ v => pureOE v
  | Stmt.retS _ v => pureOE v
  | Stmt.showS _ vs => pureOEL vs
  | Stmt.includeS _ _ => false
  | Stmt.exprS _ e => pureOE e
  | Stmt.comment _ _ => true

/-- Purity of an expression list. -/
def pureOEL : List (Option Expr) → Bool
  | [] => true
  | e :: rest => pureOE e && pureOEL rest
end

mutual
/-- An object a pure program can produce: no hash, no builtin, and pure
function bodies, array elements and return payloads. -/
def pureO : Obj → Bool
  | Obj.null => true
  | Obj.boolean _ => true
  | Obj.number _ _ _ => true
  | Obj.str _ _ => true
  | Obj.arr elms _ => pureOOL elms
  | Obj.hash _ => false
  | Obj.function _ body _ _ => pureOB body
  | Obj.builtin _ => false
  | Obj.returnValue v => pureOO v
  | Obj.error _ => true

/-- Purity of a possibly-nil object. -/
def pureOO : Option Obj → Bool
  | none => true
  | some o => pureO o

/-- Purity of an object list. -/
def pureOOL : List (Option Obj) → Bool
  | [] => true
  | o :: rest => pureOO o && pureOOL rest
end

/-- Purity of a frame: every binding holds a pure object. -/
def pureFrame (f : Frame) : Bool := f.bindings.all (fun p => pureOO p.2)

/-- Purity of a store: every frame is pure. -/
def pureStore (s : Store) : Bool := s.all pureFrame

/-- Purity of an evaluation state. -/
def pureSt (st : St) : Bool := pureStore st.store

/-! ### Purity is preserved by every store operation and every ctx-free
evaluator helper. -/

/-- A binding read from a pure binding list is pure. -/
theorem pureOO_getB_go {n : String} {v : OObj} :
    ∀ l : List (String × OObj), (∀ p ∈ l, pureOO p.2 = true) →
      Frame.getB.go n l = some v → pureOO v = true := by
  intro l
  induction l with
  | nil => intro _ h; simp [Frame.getB.go] at h
  | cons hd tl ih =>
      intro hl h
      obtain ⟨n1, v1⟩ := hd
      simp only [Frame.getB.go] at h
      by_cases he : n1 = n
      · rw [if_pos he] at h
        cases h
        exact hl (n1, v) (by simp)
      · rw [if_neg he] at h
        exact ih (fun p hp => hl p (by simp [hp])) h

/-- A binding read from a pure frame is pure. -/
theorem pureOO_getB {f : Frame} {n : String} {v : OObj}
    (hf : pureFrame f = true) (h : f.getB n = some v) : pureOO v = true := by
  rw [pureFrame, List.all_eq_true] at hf
  exact pureOO_getB_go f.bindings hf h

/-- A frame found in a pure store is pure. -/
theorem pureFrame_of_mem {s : Store} {id : Nat} {f : Frame}
    (hs : pureStore s = true) (h : s[id]? = some f) : pureFrame f = true := by
  rw [pureStore, List.all_eq_true] at hs
  have hlt : id < s.length := by
    by_contra hge
    rw [List.getElem?_eq_none (by omega)] at h
    cases h
  have heq : s[id] = f := by
    rw [List.getElem?_eq_getElem hlt] at h
    exact Option.some.inj h
  exact hs f (heq ▸ (by first | exact List.getElem_mem hlt | exact List.getElem_mem _ _ hlt))

/-- Environment lookup in a pure store yields a pure object. -/
theorem pureOO_envGet {s : Store} (hs : pureStore s = true) :
    ∀ (fuel : Nat) (id : Nat) (n : String) {v : OObj},
      envGet s fuel id n = some v → pureOO v = true := by
  intro fuel
  induction fuel with
  | zero => intro id n v h; simp [envGet] at h
  | succ fuel ih =>
      intro id n v h
      rw [envGet] at h
      cases hid : s[id]? with
      | none => simp [hid] at h
      | some f =>
          simp only [hid] at h
          cases hgb : f.getB n with
          | some w =>
              simp only [hgb] at h
              cases h
              exact pureOO_getB (pureFrame_of_mem hs hid) hgb
          | none =>
              simp only [hgb] at h
              cases ho : f.outer with
              | some oid => simp only [ho] at h; exact ih oid n h
              | none => simp [ho] at h

/-- Setting a pure value into a pure binding list keeps it pure. -/
theorem pureFrame_setB_go {n : String} {v : OObj} (hv : pureOO v = true) :
    ∀ l : List (String × OObj), (∀ p ∈ l, pureOO p.2 = true) →
      ∀ p ∈ Frame.setB.go n v l, pureOO p.2 = true := by
  intro l
  induction l with
  | nil =>
      intro _ p hp
      simp only [Frame.setB.go, List.mem_singleton] at hp
      rw [hp]
      exact hv
  | cons hd tl ih =>
      intro hl p hp
      obtain ⟨n1, v1⟩ := hd
      simp only [Frame.setB.go] at hp
      by_cases he : n1 = n
      · rw [if_pos he] at hp
        rcases List.mem_cons.mp hp with h1 | h1
        · rw [h1]; exact hv
        · exact hl p (by simp [h1])
      · rw [if_neg he] at hp
        rcases List.mem_cons.mp hp with h1 | h1
        · rw [h1]; exact hl (n1, v1) (by simp)
        · exact ih (fun q hq => hl q (by simp [hq])) p h1

/-- Setting a pure value keeps a frame pure. -/
theorem pureFrame_setB {f : Frame} {n : String} {v : OObj}
    (hf : pureFrame f = true) (hv : pureOO v = true) : pureFrame (f.setB n v) = true := by
  rw [pureFrame, List.all_eq_true] at hf ⊢
  intro p hp
  exact pureFrame_setB_go hv f.bindings hf p hp

/-- Writing a pure value into any frame of a pure store keeps it pure. -/
theorem pureStore_envSet {s : Store} {id : Nat} {n : String} {v : OObj}
    (hs : pureStore s = true) (hv : pureOO v = true) :
    pureStore (envSet s id n v) = true := by
  rw [envSet]
  cases hid : s[id]? with
  | none => exact hs
  | some f =>
      rw [pureStore, List.all_eq_true] at hs ⊢
      intro g hg
      rcases List.mem_or_eq_of_mem_set hg with h1 | h1
      · exact hs g h1
      · subst h1
        exact pureFrame_setB (pureFrame_of_mem (by rw [pureStore, List.all_eq_true]; exact hs) hid) hv

/-- Appending a pure frame keeps a store pure. -/
theorem pureStore_append {s : Store} {f : Frame}
    (hs : pureStore s = true) (hf : pureFrame f = true) :
    pureStore (s ++ [f]) = true := by
  rw [pureStore, List.all_eq_true] at hs ⊢
  intro g hg
  rcases List.mem_append.mp hg with h1 | h1
  · exact hs g h1
  · rw [List.mem_singleton.mp h1]
    exact hf

/-- The frame extendFuncEnv builds from pure arguments is pure. -/
theorem pureFrame_extend {params : List (Token × String)} {args : List OObj}
    (ha : pureOOL args = true) (fnEnv : FrameId) :
    pureFrame ((params.zip args).foldl (fun (f : Frame) pa => f.setB pa.1.2 pa.2)
      ⟨[], some fnEnv⟩) = true := by
  have hmem : ∀ pa ∈ params.zip args, pureOO pa.2 = true := by
    intro pa hpa
    have hm : pa.2 ∈ args := (List.of_mem_zip hpa).2
    clear hpa
    induction args with
    | nil => cases hm
    | cons hd tl ih =>
        rw [pureOOL, Bool.and_eq_true] at ha
        rcases List.mem_cons.mp hm with h1 | h1
        · rw [h1]; exact ha.1
        · exact ih ha.2 h1
  have hgen : ∀ (l : List ((Token × String) × OObj)) (f : Frame),
      (∀ pa ∈ l, pureOO pa.2 = true) → pureFrame f = true →
      pureFrame (l.foldl (fun (f : Frame) pa => f.setB pa.1.2 pa.2) f) = true := by
    intro l
    induction l with
    | nil => intro f _ hf; exact hf
    | cons hd tl ih =>
        intro f hl hf
        rw [List.foldl_cons]
        exact ih _ (fun pa hpa => hl pa (by simp [hpa]))
          (pureFrame_setB hf (hl hd (by simp)))
  exact hgen _ _ hmem (by rw [pureFrame]; rfl)

/-- An element read from a pure object list is pure. -/
theorem pureOO_elem {l : List OObj} (hl : pureOOL l = true) (i : Nat) :
    pureOO ((l[i]?).getD none) = true := by
  induction l generalizing i with
  | nil => simp [pureOO]
  | cons hd tl ih =>
      rw [pureOOL, Bool.and_eq_true] at hl
      cases i with
      | zero => simpa using hl.1
      | succ j => simpa using ih hl.2 j

/-- NewErr only ever builds Error objects, which are pure. -/
theorem pureOO_NewErr {src : String} {t : Token} {sh : Bool} {msg : String} {e : Obj}
    (h : NewErr src t sh msg = some e) : pureOO (some e) = true := by
  rw [NewErr] at h
  cases hm : MakeErrorLine src t sh with
  | none => rw [hm] at h; cases h
  | some line => rw [hm] at h; cases h; rfl

/-- A mapped NewErr result is pure. -/
theorem pureOO_NewErr_map {src : String} {t : Token} {sh : Bool} {msg : String} {res : OObj}
    (h : (NewErr src t sh msg).map some = some res) : pureOO res = true := by
  cases hm : NewErr src t sh msg with
  | none => rw [hm] at h; cases h
  | some e =>
      rw [hm] at h
      cases h
      exact pureOO_NewErr hm

/-- Every result of evalNumInfixExpr is pure. -/
theorem pureO_evalNumInfixExpr (op : String) (lv rv : Number) :
    pureO (evalNumInfixExpr op lv rv) = true := by
  unfold evalNumInfixExpr
  cases hv : (NumberOperation op lv rv).val with
  | none => simp only [hv]; split_ifs <;> rfl
  | some v => simp only [hv]; split_ifs <;> rfl

/-- Every result of evalPrefixExpr is pure. -/
theorem pureOO_evalPrefixExpr {op : String} {r : OObj} {res : OObj}
    (h : evalPrefixExpr op r = some res) : pureOO res = true := by
  unfold evalPrefixExpr evalMinusPrefOp at h
  repeat' split at h
  all_goals
    first
      | (cases h; cases r with | none => rfl | some o => cases o <;> rfl)
      | (cases h; rfl)
      | cases h

/-- Every result of evalInfixExpr is pure. -/
theorem pureOO_evalInfixExpr {src op : String} {l r : OObj} {res : OObj}
    (h : evalInfixExpr src op l r = some res) : pureOO res = true := by
  unfold evalInfixExpr evalInfixRest evalStringInfixExpr at h
  repeat' split at h
  all_goals
    first
      | exact pureOO_NewErr_map h
      | (cases h; rfl)
      | (cases h; exact pureO_evalNumInfixExpr op _ _)
      | cases h

/-- With pure elements, every result of evalArrIndexExpr is pure. -/
theorem pureOO_evalArrIndexExpr {elms : List OObj} {id : Number}
    (he : pureOOL elms = true) : pureOO (evalArrIndexExpr elms id) = true := by
  unfold evalArrIndexExpr
  split
  rename_i x idx noerr heq
  by_cases hn : (!noerr) = true
  · rw [if_pos hn]; rfl
  · rw [if_neg hn]
    show pureOO (if idx < 0 ∨ idx > (elms.length : Int) - 1 then some Obj.null
      else (elms[idx.toNat]?).getD none) = true
    split_ifs
    · rfl
    · exact pureOO_elem he _

/-- With a pure left operand, every result of evalIndexExpr is pure. -/
theorem pureOO_evalIndexExpr {src : String} {l idx : OObj} {res : OObj}
    (hl : pureOO l = true) (h : evalIndexExpr src l idx = some res) :
    pureOO res = true := by
  unfold evalIndexExpr evalHashIndexExpr at h
  repeat' split at h
  all_goals
    first
      | exact pureOO_NewErr_map h
      | exact absurd h (fun hh => Option.noConfusion hh)
      | (cases h; rfl)
      | (cases h; exact pureOO_evalArrIndexExpr hl)
      | exact absurd hl (fun hh => Bool.noConfusion hh)
      | cases h

/-- With an empty registry and a pure store, evalId yields pure objects. -/
theorem pureOO_evalId {ctx : Ctx} {tok : Token} {n : String} {s : Store} {env : FrameId}
    {r : OObj} (hb : ctx.builtins = fun _ => false) (hs : pureStore s = true)
    (h : evalId ctx tok n s env = some r) : pureOO r = true := by
  rw [evalId] at h
  cases hg : envGet s s.length env n with
  | some v =>
      rw [hg] at h
      cases h
      exact pureOO_envGet hs _ _ _ hg
  | none =>
      rw [hg, hb] at h
      simp only [Bool.false_eq_true, if_false] at h
      cases hN : NewErr ctx.source tok true _ <;> rw [hN] at h <;> cases h
      exact pureOO_NewErr hN

/-- evalShowStmt keeps the store and returns the pure NULL singleton. -/
theorem pure_evalShowStmt {fuel : Nat} {args : List OObj} {st st2 : St} {out : OObj}
    (hst : pureSt st = true) (h : evalShowStmt fuel args st = some (st2, out)) :
    pureSt st2 = true ∧ pureOO out = true := by
  rw [evalShowStmt] at h
  cases hi : inspectElems fuel args with
  | none => rw [hi] at h; cases h
  | some xs =>
      rw [hi] at h
      cases h
      exact ⟨hst, rfl⟩

/-- Unwrapping keeps purity. -/
theorem pureOO_unwrap {o : OObj} (h : pureOO o = true) :
    pureOO (unwrapRValue o) = true := by
  cases o with
  | none => rfl
  | some x => cases x <;> simpa [unwrapRValue, pureOO, pureO] using h

/-- Purity preservation: with an empty builtin registry, every evaluator
function sends pure inputs (program fragments with no hash literals or
includes, stores whose objects are pure) to pure outputs. Proved for all the
mutually recursive evaluator functions at once by induction on fuel. -/
theorem evalPure (ctx : Ctx) (hb : ctx.builtins = fun _ => false) :
    ∀ fuel : Nat,
      (∀ e env st p, pureE e = true → pureSt st = true →
        evalE ctx fuel e env st = some p → pureSt p.1 = true ∧ pureOO p.2 = true) ∧
      (∀ oe env st p, pureOE oe = true → pureSt st = true →
        evalOE ctx fuel oe env st = some p → pureSt p.1 = true ∧ pureOO p.2 = true) ∧
      (∀ s env st p, pureS s = true → pureSt st = true →
        evalS ctx fuel s env st = some p → pureSt p.1 = true ∧ pureOO p.2 = true) ∧
      (∀ l env st res p, pureSL l = true → pureSt st = true → pureOO res = true →
        evalProgStmts ctx fuel l env st res = some p →
        pureSt p.1 = true ∧ pureOO p.2 = true) ∧
      (∀ l env st res p, pureSL l = true → pureSt st = true → pureOO res = true →
        evalBlockStmts ctx fuel l env st res = some p →
        pureSt p.1 = true ∧ pureOO p.2 = true) ∧
      (∀ ob env st p, pureOB ob = true → pureSt st = true →
        evalBlockO ctx fuel ob env st = some p → pureSt p.1 = true ∧ pureOO p.2 = true) ∧
      (∀ l env st q, pureOEL l = true → pureSt st = true →
        evalExprs ctx fuel l env st = some q → pureSt q.1 = true ∧ pureOOL q.2 = true) ∧
      (∀ cond body env condVal result st p, pureOE cond = true → pureOB body = true →
        pureOO result = true → pureSt st = true →
        evalWhileLoop ctx fuel cond body env condVal result st = some p →
        pureSt p.1 = true ∧ pureOO p.2 = true) ∧
      (∀ fn caller args st p, pureOO fn = true → pureOOL args = true → pureSt st = true →
        applyFunc ctx fuel fn caller args st = some p →
        pureSt p.1 = true ∧ pureOO p.2 = true) := by
  intro fuel
  induction fuel with
  | zero =>
      refine ⟨?_, ?_, ?_, ?_, ?_, ?_, ?_, ?_, ?_⟩
      · intro e env st p _ _ hev; cases hev
      · intro oe env st p _ _ hev; cases hev
      · intro s env st p _ _ hev; cases hev
      · intro l env st res p _ hst hres hev
        cases l with
        | nil => cases hev; exact ⟨hst, hres⟩
        | cons a b => cases hev
      · intro l env st res p _ hst hres hev
        cases l with
        | nil => cases hev; exact ⟨hst, hres⟩
        | cons a b => cases hev
      · intro ob env st p _ _ hev; cases hev
      · intro l env st q _ hst hev
        cases l with
        | nil => cases hev; exact ⟨hst, rfl⟩
        | cons a b => cases hev
      · intro cond body env condVal result st p _ _ hres hst hev
        rw [evalWhileLoop] at hev
        by_cases ht : isTruthy condVal = true
        · rw [if_pos ht] at hev; cases hev
        · rw [if_neg ht] at hev; cases hev; exact ⟨hst, hres⟩
      · intro fn caller args st p _ _ _ hev; cases hev
  | succ fuel ih =>
      obtain ⟨ihE, ihOE, ihS, ihP, ihB, ihBO, ihX, ihW, ihA⟩ := ih
      refine ⟨?_, ?_, ?_, ?_, ?_, ?_, ?_, ?_, ?_⟩
      · -- evalE
        intro e env st p he hst hev
        cases e with
        | ident tok v =>
            simp only [evalE] at hev
            cases hid : evalId ctx tok v st.store env with
            | none => rw [hid] at hev; cases hev
            | some r =>
                rw [hid] at hev
                cases hev
                exact ⟨hst, pureOO_evalId hb hst hid⟩
        | numberLit tok v i => cases hev; exact ⟨hst, rfl⟩
        | stringLit tok v => cases hev; exact ⟨hst, rfl⟩
        | boolLit tok v => cases hev; exact ⟨hst, rfl⟩
        | funcLit tok params body => cases hev; exact ⟨hst, he⟩
        | prefixE tok op right =>
            simp only [pureE] at he
            simp only [evalE] at hev
            cases hoe : evalOE ctx fuel right env st with
            | none => rw [hoe] at hev; cases hev
            | some q =>
                obtain ⟨st1, r⟩ := q
                simp only [hoe, Option.bind_eq_bind, Option.some_bind] at hev
                obtain ⟨h1, h2⟩ := ihOE right env st (st1, r) he hst hoe
                by_cases hie : isErr r = true
                · rw [if_pos hie] at hev; cases hev; exact ⟨h1, h2⟩
                · rw [if_neg hie] at hev
                  cases hpe : evalPrefixExpr op r with
                  | none => rw [hpe] at hev; cases hev
                  | some res =>
                      rw [hpe] at hev
                      cases hev
                      exact ⟨h1, pureOO_evalPrefixExpr hpe⟩
        | infixE tok op left right =>
            simp only [pureE, Bool.and_eq_true] at he
            simp only [evalE] at hev
            cases hoe : evalOE ctx fuel left env st with
            | none => rw [hoe] at hev; cases hev
            | some q =>
                obtain ⟨st1, lv⟩ := q
                simp only [hoe, Option.bind_eq_bind, Option.some_bind] at hev
                obtain ⟨h1, h2⟩ := ihOE left env st (st1, lv) he.1 hst hoe
                by_cases hie : isErr lv = true
                · rw [if_pos hie] at hev; cases hev; exact ⟨h1, h2⟩
                · rw [if_neg hie] at hev
                  cases hoe2 : evalOE ctx fuel right env st1 with
                  | none => rw [hoe2] at hev; cases hev
                  | some q2 =>
                      obtain ⟨st2, rv⟩ := q2
                      simp only [hoe2, Option.some_bind] at hev
                      obtain ⟨h3, h4⟩ := ihOE right env st1 (st2, rv) he.2 h1 hoe2
                      by_cases hie2 : isErr rv = true
                      · rw [if_pos hie2] at hev; cases hev; exact ⟨h3, h4⟩
                      · rw [if_neg hie2] at hev
                        cases hin : evalInfixExpr ctx.source op lv rv with
                        | none => rw [hin] at hev; cases hev
                        | some res =>
                            rw [hin] at hev
                            cases hev
                            exact ⟨h3, pureOO_evalInfixExpr hin⟩
        | ifE tok cond tb eb =>
            simp only [pureE, Bool.and_eq_true] at he
            obtain ⟨⟨hc, htb⟩, heb⟩ := he
            simp only [evalE] at hev
            cases hoe : evalOE ctx fuel cond env st with
            | none => rw [hoe] at hev; cases hev
            | some q =>
                obtain ⟨st1, cv⟩ := q
                simp only [hoe, Option.bind_eq_bind, Option.some_bind] at hev
                obtain ⟨h1, h2⟩ := ihOE cond env st (st1, cv) hc hst hoe
                by_cases hie : isErr cv = true
                · rw [if_pos hie] at hev; cases hev; exact ⟨h1, h2⟩
                · rw [if_neg hie] at hev
                  by_cases hit : isTruthy cv = true
                  · rw [if_pos hit] at hev
                    exact ihBO tb env st1 p htb h1 hev
                  · rw [if_neg hit] at hev
                    cases eb with
                    | some ebs => exact ihB ebs env st1 none p heb h1 rfl hev
                    | none => cases hev; exact ⟨h1, rfl⟩
        | whileE tok cond body =>
            simp only [pureE, Bool.and_eq_true] at he
            simp only [evalE] at hev
            cases hoe : evalOE ctx fuel cond env st with
            | none => rw [hoe] at hev; cases hev
            | some q =>
                obtain ⟨st1, cv⟩ := q
                simp only [hoe, Option.bind_eq_bind, Option.some_bind] at hev
                obtain ⟨h1, h2⟩ := ihOE cond env st (st1, cv) he.1 hst hoe
                by_cases hie : isErr cv = true
                · rw [if_pos hie] at hev; cases hev; exact ⟨h1, h2⟩
                · rw [if_neg hie] at hev
                  exact ihW cond body env cv none st1 p he.1 he.2 rfl h1 hev
        | callE tok func args =>
            simp only [pureE, Bool.and_eq_true] at he
            simp only [evalE] at hev
            cases hoe : evalOE ctx fuel func env st with
            | none => rw [hoe] at hev; cases hev
            | some q =>
                obtain ⟨st1, fnc⟩ := q
                simp only [hoe, Option.bind_eq_bind, Option.some_bind] at hev
                obtain ⟨h1, h2⟩ := ihOE func env st (st1, fnc) he.1 hst hoe
                by_cases hie : isErr fnc = true
                · rw [if_pos hie] at hev; cases hev; exact ⟨h1, h2⟩
                · rw [if_neg hie] at hev
                  cases hex : evalExprs ctx fuel args env st1 with
                  | none => rw [hex] at hev; cases hev
                  | some q2 =>
                      obtain ⟨st2, argv⟩ := q2
                      simp only [hex, Option.some_bind] at hev
                      obtain ⟨h3, h4⟩ := ihX args env st1 (st2, argv) he.2 h1 hex
                      cases argv with
                      | nil => exact ihA fnc tok [] st2 p h2 rfl h3 hev
                      | cons a rest =>
                          cases rest with
                          | nil =>
                              have hev2 : (if isErr a then some (st2, a)
                                  else applyFunc ctx fuel fnc tok [a] st2) = some p := hev
                              have ha1 : pureOO a = true := by
                                have h4b : (pureOO a && pureOOL []) = true := h4
                                simp at h4b; exact h4b.1
                              by_cases hia : isErr a = true
                              · rw [if_pos hia] at hev2; cases hev2; exact ⟨h3, ha1⟩
                              · rw [if_neg hia] at hev2
                                exact ihA fnc tok [a] st2 p h2 h4 h3 hev2
                          | cons b rest2 =>
                              exact ihA fnc tok (a :: b :: rest2) st2 p h2 h4 h3 hev
        | arrLit tok elms =>
            simp only [pureE] at he
            simp only [evalE] at hev
            cases hex : evalExprs ctx fuel elms env st with
            | none => rw [hex] at hev; cases hev
            | some q =>
                obtain ⟨st1, elv⟩ := q
                simp only [hex, Option.bind_eq_bind, Option.some_bind] at hev
                obtain ⟨h1, h2⟩ := ihX elms env st (st1, elv) he hst hex
                cases elv with
                | nil => cases hev; exact ⟨h1, rfl⟩
                | cons a rest =>
                    cases rest with
                    | nil =>
                        have hev2 : (if isErr a then some (st1, a)
                            else some (st1, some (Obj.arr [a] tok))) = some p := hev
                        have ha1 : pureOO a = true := by
                          have h2b : (pureOO a && pureOOL []) = true := h2
                          simp at h2b; exact h2b.1
                        by_cases hia : isErr a = true
                        · rw [if_pos hia] at hev2; cases hev2; exact ⟨h1, ha1⟩
                        · rw [if_neg hia] at hev2; cases hev2; exact ⟨h1, h2⟩
                    | cons b rest2 => cases hev; exact ⟨h1, h2⟩
        | hashLit tok pairs => exact Bool.noConfusion he
        | indexE tok left index =>
            simp only [pureE, Bool.and_eq_true] at he
            simp only [evalE] at hev
            cases hoe : evalOE ctx fuel left env st with
            | none => rw [hoe] at hev; cases hev
            | some q =>
                obtain ⟨st1, lv⟩ := q
                simp only [hoe, Option.bind_eq_bind, Option.some_bind] at hev
                obtain ⟨h1, h2⟩ := ihOE left env st (st1, lv) he.1 hst hoe
                by_cases hie : isErr lv = true
                · rw [if_pos hie] at hev; cases hev; exact ⟨h1, rfl⟩
                · rw [if_neg hie] at hev
                  cases hoe2 : evalOE ctx fuel index env st1 with
                  | none => rw [hoe2] at hev; cases hev
                  | some q2 =>
                      obtain ⟨st2, iv⟩ := q2
                      simp only [hoe2, Option.some_bind] at hev
                      obtain ⟨h3, h4⟩ := ihOE index env st1 (st2, iv) he.2 h1 hoe2
                      by_cases hie2 : isErr iv = true
                      · rw [if_pos hie2] at hev; cases hev; exact ⟨h3, h4⟩
                      · rw [if_neg hie2] at hev
                        cases hin : evalIndexExpr ctx.source lv iv with
                        | none => rw [hin] at hev; cases hev
                        | some res =>
                            rw [hin] at hev
                            cases hev
                            exact ⟨h3, pureOO_evalIndexExpr h2 hin⟩
      · -- evalOE
        intro oe env st p hoe hst hev
        cases oe with
        | none => cases hev; exact ⟨hst, rfl⟩
        | some e => exact ihE e env st p hoe hst hev
      · -- evalS
        intro s env st p hs hst hev
        cases s with
        | letS tok1 tok2 name value =>
            simp only [pureS] at hs
            simp only [evalS] at hev
            cases hoe : evalOE ctx fuel value env st with
            | none => rw [hoe] at hev; cases hev
            | some q =>
                obtain ⟨st1, val⟩ := q
                simp only [hoe, Option.bind_eq_bind, Option.some_bind] at hev
                obtain ⟨h1, h2⟩ := ihOE value env st (st1, val) hs hst hoe
                by_cases hie : isErr val = true
                · rw [if_pos hie] at hev; cases hev; exact ⟨h1, h2⟩
                · rw [if_neg hie] at hev
                  cases hev
                  exact ⟨pureStore_envSet h1 h2, rfl⟩
        | retS tok value =>
            simp only [pureS] at hs
            simp only [evalS] at hev
            cases hoe : evalOE ctx fuel value env st with
            | none => rw [hoe] at hev; cases hev
            | some q =>
                obtain ⟨st1, val⟩ := q
                simp only [hoe, Option.bind_eq_bind, Option.some_bind] at hev
                obtain ⟨h1, h2⟩ := ihOE value env st (st1, val) hs hst hoe
                by_cases hie : isErr val = true
                · rw [if_pos hie] at hev; cases hev; exact ⟨h1, h2⟩
                · rw [if_neg hie] at hev; cases hev; exact ⟨h1, h2⟩
        | showS tok values =>
            simp only [pureS] at hs
            simp only [evalS] at hev
            cases hex : evalExprs ctx fuel values env st with
            | none => rw [hex] at hev; cases hev
            | some q =>
                obtain ⟨st1, args⟩ := q
                simp only [hex, Option.bind_eq_bind, Option.some_bind] at hev
                obtain ⟨h1, h2⟩ := ihX values env st (st1, args) hs hst hex
                obtain ⟨st2, out⟩ := p
                exact pure_evalShowStmt h1 hev
        | includeS tok filename => exact Bool.noConfusion hs
        | exprS tok expr => exact ihOE expr env st p hs hst hev
        | comment tok text => cases hev; exact ⟨hst, rfl⟩
      · -- evalProgStmts
        intro l env st res p hl hst hres hev
        cases l with
        | nil => cases hev; exact ⟨hst, hres⟩
        | cons s0 rest =>
            simp only [pureSL, Bool.and_eq_true] at hl
            simp only [evalProgStmts] at hev
            cases hsv : evalS ctx fuel s0 env st with
            | none => rw [hsv] at hev; cases hev
            | some q =>
                obtain ⟨st1, r⟩ := q
                simp only [hsv, Option.bind_eq_bind, Option.some_bind] at hev
                obtain ⟨h1, h2⟩ := ihS s0 env st (st1, r) hl.1 hst hsv
                cases r with
                | none => exact ihP rest env st1 none p hl.2 h1 rfl hev
                | some o =>
                    cases o
                    case returnValue v => cases hev; exact ⟨h1, h2⟩
                    case error m => cases hev; exact ⟨h1, rfl⟩
                    all_goals exact ihP rest env st1 _ p hl.2 h1 h2 hev
      · -- evalBlockStmts
        intro l env st res p hl hst hres hev
        cases l with
        | nil => cases hev; exact ⟨hst, hres⟩
        | cons s0 rest =>
            simp only [pureSL, Bool.and_eq_true] at hl
            simp only [evalBlockStmts] at hev
            cases hsv : evalS ctx fuel s0 env st with
            | none => rw [hsv] at hev; cases hev
            | some q =>
                obtain ⟨st1, r⟩ := q
                simp only [hsv, Option.bind_eq_bind, Option.some_bind] at hev
                obtain ⟨h1, h2⟩ := ihS s0 env st (st1, r) hl.1 hst hsv
                cases r with
                | none => exact ihB rest env st1 none p hl.2 h1 rfl hev
                | some o =>
                    have hev2 : (if (o.type == ObjType.returnT || o.type == ObjType.errT) = true
                        then some (st1, some o)
                        else evalBlockStmts ctx fuel rest env st1 (some o)) = some p := hev
                    by_cases ht : (o.type == ObjType.returnT || o.type == ObjType.errT) = true
                    · rw [if_pos ht] at hev2; cases hev2; exact ⟨h1, h2⟩
                    · rw [if_neg ht] at hev2
                      exact ihB rest env st1 (some o) p hl.2 h1 h2 hev2
      · -- evalBlockO
        intro ob env st p hob hst hev
        cases ob with
        | none => cases hev
        | some stmts => exact ihB stmts env st none p hob hst rfl hev
      · -- evalExprs
        intro l env st q hl hst hev
        cases l with
        | nil => cases hev; exact ⟨hst, rfl⟩
        | cons e rest =>
            simp only [pureOEL, Bool.and_eq_true] at hl
            simp only [evalExprs] at hev
            cases hoe : evalOE ctx fuel e env st with
            | none => rw [hoe] at hev; cases hev
            | some q1 =>
                obtain ⟨st1, ev⟩ := q1
                simp only [hoe, Option.bind_eq_bind, Option.some_bind] at hev
                obtain ⟨h1, h2⟩ := ihOE e env st (st1, ev) hl.1 hst hoe
                by_cases hie : isErr ev = true
                · rw [if_pos hie] at hev; cases hev
                  refine ⟨h1, ?_⟩
                  show (pureOO ev && pureOOL []) = true
                  simp [h2, pureOOL]
                · rw [if_neg hie] at hev
                  cases hex : evalExprs ctx fuel rest env st1 with
                  | none => rw [hex] at hev; cases hev
                  | some q2 =>
                      obtain ⟨st2, res⟩ := q2
                      simp only [hex, Option.some_bind] at hev
                      cases hev
                      obtain ⟨h3, h4⟩ := ihX rest env st1 (st2, res) hl.2 h1 hex
                      refine ⟨h3, ?_⟩
                      show (pureOO ev && pureOOL res) = true
                      simp [h2, h4]
      · -- evalWhileLoop
        intro cond body env condVal result st p hc hbod hres hst hev
        rw [evalWhileLoop] at hev
        by_cases ht : isTruthy condVal = true
        · rw [if_pos ht] at hev
          have hev2 : (do
              let (st1, r) ← evalBlockO ctx fuel body env st
              let (st2, c2) ← evalOE ctx fuel cond env st1
              evalWhileLoop ctx fuel cond body env c2 r st2) = some p := hev
          clear hev
          cases hbo : evalBlockO ctx fuel body env st with
          | none => rw [hbo] at hev2; cases hev2
          | some q1 =>
              obtain ⟨st1, r⟩ := q1
              simp only [hbo, Option.bind_eq_bind, Option.some_bind] at hev2
              obtain ⟨h1, h2⟩ := ihBO body env st (st1, r) hbod hst hbo
              cases hoe : evalOE ctx fuel cond env st1 with
              | none => rw [hoe] at hev2; cases hev2
              | some q2 =>
                  obtain ⟨st2, c2⟩ := q2
                  simp only [hoe, Option.some_bind] at hev2
                  obtain ⟨h3, h4⟩ := ihOE cond env st1 (st2, c2) hc h1 hoe
                  exact ihW cond body env c2 r st2 p hc hbod h2 h3 hev2
        · rw [if_neg ht] at hev
          cases hev
          exact ⟨hst, hres⟩
      · -- applyFunc
        intro fn caller args st p hfn ha hst hev
        cases fn with
        | none => cases hev
        | some o =>
            cases o
            case function params body fnEnv ftok =>
              have hev2 : (if (params.length == args.length) = true then
                  (do
                    let (st2, evd) ← evalBlockO ctx fuel body st.store.length
                      { st with store := st.store ++ [(params.zip args).foldl
                          (fun (f : Frame) pa => f.setB pa.1.2 pa.2) ⟨[], some fnEnv⟩] }
                    some (st2, unwrapRValue evd))
                else match NewErr ctx.source caller false
                    (arityMsg params.length args.length) with
                  | none => none
                  | some e => some (st, some e)) = some p := hev
              clear hev
              by_cases hlen : (params.length == args.length) = true
              · rw [if_pos hlen] at hev2
                generalize hS1 : st.store ++ [(params.zip args).foldl
                    (fun (f : Frame) pa => f.setB pa.1.2 pa.2) ⟨[], some fnEnv⟩] = s1 at hev2
                have hfr : pureSt { st with store := s1 } = true := by
                  rw [← hS1]
                  exact pureStore_append hst (pureFrame_extend ha fnEnv)
                cases hbo : evalBlockO ctx fuel body st.store.length
                    { st with store := s1 } with
                | none => rw [hbo] at hev2; cases hev2
                | some q =>
                    obtain ⟨st2, evd⟩ := q
                    simp only [hbo, Option.bind_eq_bind, Option.some_bind] at hev2
                    cases hev2
                    obtain ⟨h1, h2⟩ := ihBO body st.store.length { st with store := s1 }
                      (st2, evd) hfn hfr hbo
                    exact ⟨h1, pureOO_unwrap h2⟩
              · rw [if_neg hlen] at hev2
                cases hN : NewErr ctx.source caller false
                    (arityMsg params.length args.length) with
                | none => rw [hN] at hev2; cases hev2
                | some e2 =>
                    rw [hN] at hev2
                    cases hev2
                    exact ⟨hst, pureOO_NewErr hN⟩
            case builtin n => exact Bool.noConfusion hfn
            all_goals (cases hev; exact ⟨hst, rfl⟩)

/-- One unfolding of the while loop when the condition value is truthy. -/
theorem evalWhileLoop_succ (ctx : Ctx) (fuel : Nat) (cond : Option Expr)
    (body : Option (List Stmt)) (env : FrameId) (condVal result : OObj) (st : St)
    (ht : isTruthy condVal = true) :
    evalWhileLoop ctx (fuel + 1) cond body env condVal result st = (do
      let (st1, r) ← evalBlockO ctx fuel body env st
      let (st2, c2) ← evalOE ctx fuel cond env st1
      evalWhileLoop ctx fuel cond body env c2 r st2) := by
  rw [evalWhileLoop, if_pos ht]

/-- Iteration-order independence: with an empty builtin registry, every
evaluator function gives the same answer under any two hash-pair iteration
orders, on pure program fragments and pure states. Induction on fuel,
mutually for all the evaluator functions; the hash-literal case is vacuous
because pure expressions contain none. -/
theorem evalPermEq (c : Ctx)
    (σ σ' : List (Option Expr × Option Expr) → List (Option Expr × Option Expr))
    (hb : c.builtins = fun _ => false) :
    ∀ fuel : Nat,
      (∀ e env st, pureE e = true → pureSt st = true →
        evalE { c with perm := σ } fuel e env st
          = evalE { c with perm := σ' } fuel e env st) ∧
      (∀ oe env st, pureOE oe = true → pureSt st = true →
        evalOE { c with perm := σ } fuel oe env st
          = evalOE { c with perm := σ' } fuel oe env st) ∧
      (∀ s env st, pureS s = true → pureSt st = true →
        evalS { c with perm := σ } fuel s env st
          = evalS { c with perm := σ' } fuel s env st) ∧
      (∀ l env st res, pureSL l = true → pureSt st = true → pureOO res = true →
        evalProgStmts { c with perm := σ } fuel l env st res
          = evalProgStmts { c with perm := σ' } fuel l env st res) ∧
      (∀ l env st res, pureSL l = true → pureSt st = true → pureOO res = true →
        evalBlockStmts { c with perm := σ } fuel l env st res
          = evalBlockStmts { c with perm := σ' } fuel l env st res) ∧
      (∀ ob env st, pureOB ob = true → pureSt st = true →
        evalBlockO { c with perm := σ } fuel ob env st
          = evalBlockO { c with perm := σ' } fuel ob env st) ∧
      (∀ l env st, pureOEL l = true → pureSt st = true →
        evalExprs { c with perm := σ } fuel l env st
          = evalExprs { c with perm := σ' } fuel l env st) ∧
      (∀ cond body env condVal result st, pureOE cond = true → pureOB body = true →
        pureOO result = true → pureSt st = true →
        evalWhileLoop { c with perm := σ } fuel cond body env condVal result st
          = evalWhileLoop { c with perm := σ' } fuel cond body env condVal result st) ∧
      (∀ fn caller args st, pureOO fn = true → pureOOL args = true → pureSt st = true →
        applyFunc { c with perm := σ } fuel fn caller args st
          = applyFunc { c with perm := σ' } fuel fn caller args st) := by
  intro fuel
  induction fuel with
  | zero =>
      refine ⟨?_, ?_, ?_, ?_, ?_, ?_, ?_, ?_, ?_⟩
      · intro e env st _ _; rfl
      · intro oe env st _ _; rfl
      · intro s env st _ _; rfl
      · intro l env st res _ _ _
        cases l with
        | nil => rfl
        | cons a b => rfl
      · intro l env st res _ _ _
        cases l with
        | nil => rfl
        | cons a b => rfl
      · intro ob env st _ _; rfl
      · intro l env st _ _
        cases l with
        | nil => rfl
        | cons a b => rfl
      · intro cond body env condVal result st _ _ _ _
        by_cases ht : isTruthy condVal = true
        · simp only [evalWhileLoop, if_pos ht]
        · simp only [evalWhileLoop, if_neg ht]
      · intro fn caller args st _ _ _; rfl
  | succ fuel ih =>
      obtain ⟨ihE, ihOE, ihS, ihP, ihB, ihBO, ihX, ihW, ihA⟩ := ih
      obtain ⟨pE, pOE, pS, pP, pB, pBO, pX, pW, pA⟩ :=
        evalPure { c with perm := σ' } hb fuel
      refine ⟨?_, ?_, ?_, ?_, ?_, ?_, ?_, ?_, ?_⟩
      · -- evalE
        intro e env st he hst
        cases e with
        | ident tok v => rfl
        | numberLit tok v i => rfl
        | stringLit tok v => rfl
        | boolLit tok v => rfl
        | funcLit tok params body => rfl
        | hashLit tok pairs => exact Bool.noConfusion he
        | prefixE tok op right =>
            simp only [pureE] at he
            simp only [evalE]
            rw [ihOE right env st he hst]
        | infixE tok op left right =>
            simp only [pureE, Bool.and_eq_true] at he
            simp only [evalE]
            rw [ihOE left env st he.1 hst]
            cases hoe : evalOE { c with perm := σ' } fuel left env st with
            | none => rfl
            | some q =>
                obtain ⟨st1, lv⟩ := q
                obtain ⟨h1, h2⟩ := pOE left env st (st1, lv) he.1 hst hoe
                simp only [Option.bind_eq_bind, Option.some_bind]
                by_cases hie : isErr lv = true
                · simp only [if_pos hie]
                · simp only [if_neg hie]
                  rw [ihOE right env st1 he.2 h1]
        | ifE tok cond tb eb =>
            simp only [pureE, Bool.and_eq_true] at he
            obtain ⟨⟨hc, htb⟩, heb⟩ := he
            simp only [evalE]
            rw [ihOE cond env st hc hst]
            cases hoe : evalOE { c with perm := σ' } fuel cond env st with
            | none => rfl
            | some q =>
                obtain ⟨st1, cv⟩ := q
                obtain ⟨h1, h2⟩ := pOE cond env st (st1, cv) hc hst hoe
                simp only [Option.bind_eq_bind, Option.some_bind]
                by_cases hie : isErr cv = true
                · simp only [if_pos hie]
                · simp only [if_neg hie]
                  by_cases hit : isTruthy cv = true
                  · simp only [if_pos hit]
                    exact ihBO tb env st1 htb h1
                  · simp only [if_neg hit]
                    cases eb with
                    | some ebs => exact ihB ebs env st1 none heb h1 rfl
                    | none => rfl
        | whileE tok cond body =>
            simp only [pureE, Bool.and_eq_true] at he
            simp only [evalE]
            rw [ihOE cond env st he.1 hst]
            cases hoe : evalOE { c with perm := σ' } fuel cond env st with
            | none => rfl
            | some q =>
                obtain ⟨st1, cv⟩ := q
                obtain ⟨h1, h2⟩ := pOE cond env st (st1, cv) he.1 hst hoe
                simp only [Option.bind_eq_bind, Option.some_bind]
                by_cases hie : isErr cv = true
                · simp only [if_pos hie]
                · simp only [if_neg hie]
                  exact ihW cond body env cv none st1 he.1 he.2 rfl h1
        | callE tok func args =>
            simp only [pureE, Bool.and_eq_true] at he
            simp only [evalE]
            rw [ihOE func env st he.1 hst]
            cases hoe : evalOE { c with perm := σ' } fuel func env st with
            | none => rfl
            | some q =>
                obtain ⟨st1, fnc⟩ := q
                obtain ⟨h1, h2⟩ := pOE func env st (st1, fnc) he.1 hst hoe
                simp only [Option.bind_eq_bind, Option.some_bind]
                by_cases hie : isErr fnc = true
                · simp only [if_pos hie]
                · simp only [if_neg hie]
                  rw [ihX args env st1 he.2 h1]
                  cases hex : evalExprs { c with perm := σ' } fuel args env st1 with
                  | none => rfl
                  | some q2 =>
                      obtain ⟨st2, argv⟩ := q2
                      obtain ⟨h3, h4⟩ := pX args env st1 (st2, argv) he.2 h1 hex
                      simp only [Option.some_bind]
                      cases argv with
                      | nil => exact ihA fnc tok [] st2 h2 rfl h3
                      | cons a rest =>
                          cases rest with
                          | nil =>
                              show (if isErr a then some (st2, a)
                                  else applyFunc { c with perm := σ } fuel fnc tok [a] st2)
                                = (if isErr a then some (st2, a)
                                  else applyFunc { c with perm := σ' } fuel fnc tok [a] st2)
                              by_cases hia : isErr a = true
                              · simp only [if_pos hia]
                              · simp only [if_neg hia]
                                exact ihA fnc tok [a] st2 h2 h4 h3
                          | cons b rest2 =>
                              exact ihA fnc tok (a :: b :: rest2) st2 h2 h4 h3
        | arrLit tok elms =>
            simp only [pureE] at he
            simp only [evalE]
            rw [ihX elms env st he hst]
        | indexE tok left index =>
            simp only [pureE, Bool.and_eq_true] at he
            simp only [evalE]
            rw [ihOE left env st he.1 hst]
            cases hoe : evalOE { c with perm := σ' } fuel left env st with
            | none => rfl
            | some q =>
                obtain ⟨st1, lv⟩ := q
                obtain ⟨h1, h2⟩ := pOE left env st (st1, lv) he.1 hst hoe
                simp only [Option.bind_eq_bind, Option.some_bind]
                by_cases hie : isErr lv = true
                · simp only [if_pos hie]
                · simp only [if_neg hie]
                  rw [ihOE index env st1 he.2 h1]
      · -- evalOE
        intro oe env st hoe hst
        cases oe with
        | none => rfl
        | some e => exact ihE e env st hoe hst
      · -- evalS
        intro s env st hs hst
        cases s with
        | letS t1 t2 name value =>
            simp only [pureS] at hs
            simp only [evalS]
            rw [ihOE value env st hs hst]
        | retS tok value =>
            simp only [pureS] at hs
            simp only [evalS]
            rw [ihOE value env st hs hst]
        | showS tok values =>
            simp only [pureS] at hs
            simp only [evalS]
            rw [ihX values env st hs hst]
        | includeS tok filename => exact Bool.noConfusion hs
        | exprS tok expr => exact ihOE expr env st hs hst
        | comment tok text => rfl
      · -- evalProgStmts
        intro l env st res hl hst hres
        cases l with
        | nil => rfl
        | cons s0 rest =>
            simp only [pureSL, Bool.and_eq_true] at hl
            simp only [evalProgStmts]
            rw [ihS s0 env st hl.1 hst]
            cases hsv : evalS { c with perm := σ' } fuel s0 env st with
            | none => rfl
            | some q =>
                obtain ⟨st1, r⟩ := q
                obtain ⟨h1, h2⟩ := pS s0 env st (st1, r) hl.1 hst hsv
                simp only [Option.bind_eq_bind, Option.some_bind]
                cases r with
                | none => exact ihP rest env st1 none hl.2 h1 rfl
                | some o =>
                    cases o
                    case returnValue v => rfl
                    case error m => rfl
                    all_goals exact ihP rest env st1 _ hl.2 h1 h2
      · -- evalBlockStmts
        intro l env st res hl hst hres
        cases l with
        | nil => rfl
        | cons s0 rest =>
            simp only [pureSL, Bool.and_eq_true] at hl
            simp only [evalBlockStmts]
            rw [ihS s0 env st hl.1 hst]
            cases hsv : evalS { c with perm := σ' } fuel s0 env st with
            | none => rfl
            | some q =>
                obtain ⟨st1, r⟩ := q
                obtain ⟨h1, h2⟩ := pS s0 env st (st1, r) hl.1 hst hsv
                simp only [Option.bind_eq_bind, Option.some_bind]
                cases r with
                | none => exact ihB rest env st1 none hl.2 h1 rfl
                | some o =>
                    show (if (o.type == ObjType.returnT || o.type == ObjType.errT) = true
                        then some (st1, some o)
                        else evalBlockStmts { c with perm := σ } fuel rest env st1 (some o))
                      = (if (o.type == ObjType.returnT || o.type == ObjType.errT) = true
                        then some (st1, some o)
                        else evalBlockStmts { c with perm := σ' } fuel rest env st1 (some o))
                    by_cases ht : (o.type == ObjType.returnT || o.type == ObjType.errT) = true
                    · simp only [if_pos ht]
                    · simp only [if_neg ht]
                      exact ihB rest env st1 (some o) hl.2 h1 h2
      · -- evalBlockO
        intro ob env st hob hst
        cases ob with
        | none => rfl
        | some stmts => exact ihB stmts env st none hob hst rfl
      · -- evalExprs
        intro l env st hl hst
        cases l with
        | nil => rfl
        | cons e rest =>
            simp only [pureOEL, Bool.and_eq_true] at hl
            simp only [evalExprs]
            rw [ihOE e env st hl.1 hst]
            cases hoe : evalOE { c with perm := σ' } fuel e env st with
            | none => rfl
            | some q1 =>
                obtain ⟨st1, ev⟩ := q1
                obtain ⟨h1, h2⟩ := pOE e env st (st1, ev) hl.1 hst hoe
                simp only [Option.bind_eq_bind, Option.some_bind]
                by_cases hie : isErr ev = true
                · simp only [if_pos hie]
                · simp only [if_neg hie]
                  rw [ihX rest env st1 hl.2 h1]
      · -- evalWhileLoop
        intro cond body env condVal result st hc hbod hres hst
        by_cases ht : isTruthy condVal = true
        · rw [evalWhileLoop_succ _ _ _ _ _ _ _ _ ht, evalWhileLoop_succ _ _ _ _ _ _ _ _ ht]
          rw [ihBO body env st hbod hst]
          cases hbo : evalBlockO { c with perm := σ' } fuel body env st with
          | none => rfl
          | some q1 =>
              obtain ⟨st1, r⟩ := q1
              obtain ⟨h1, h2⟩ := pBO body env st (st1, r) hbod hst hbo
              simp only [Option.bind_eq_bind, Option.some_bind]
              rw [ihOE cond env st1 hc h1]
              cases hoe : evalOE { c with perm := σ' } fuel cond env st1 with
              | none => rfl
              | some q2 =>
                  obtain ⟨st2, c2v⟩ := q2
                  obtain ⟨h3, h4⟩ := pOE cond env st1 (st2, c2v) hc h1 hoe
                  simp only [Option.some_bind]
                  exact ihW cond body env c2v r st2 hc hbod h2 h3
        · rw [evalWhileLoop, evalWhileLoop]
          rw [if_neg ht, if_neg ht]
      · -- applyFunc
        intro fn caller args st hfn ha hst
        cases fn with
        | none => rfl
        | some o =>
            cases o
            case function params body fnEnv ftok =>
              simp only [applyFunc, extendFuncEnv]
              by_cases hlen : (params.length == args.length) = true
              · simp only [if_pos hlen]
                have hfr : pureSt { st with store := st.store ++ [(params.zip args).foldl
                    (fun (f : Frame) pa => f.setB pa.1.2 pa.2) ⟨[], some fnEnv⟩] } = true :=
                  pureStore_append hst (pureFrame_extend ha fnEnv)
                rw [ihBO body st.store.length
                  { st with store := st.store ++ [(params.zip args).foldl
                      (fun (f : Frame) pa => f.setB pa.1.2 pa.2) ⟨[], some fnEnv⟩] }
                  hfn hfr]
              · simp only [if_neg hlen]
            all_goals rfl

/-- C7 (amended): determinism holds exactly on the hash-free fragment. For a
program with no hash literals and no include statements, run from a pure
state with an empty builtin registry, evaluation does not depend on the
unspecified Go map iteration order over hash-literal pairs: any two iteration
orders σ and σ' give the same final state, buffer and result. (With hash
literals present the order is observable — see the counterexample — and a
nonempty builtin registry brings in native collaborators such as the stdlib
time builtin, which are honestly nondeterministic.) -/
theorem c7_determinism_amended (c : Ctx)
    (σ σ' : List (Option Expr × Option Expr) → List (Option Expr × Option Expr))
    (hb : c.builtins = fun _ => false)
    (prog : List Stmt) (env : FrameId) (st : St) (fuel : Nat)
    (hp : pureSL prog = true) (hst : pureSt st = true) :
    EvalProgram { c with perm := σ } fuel prog env st
      = EvalProgram { c with perm := σ' } fuel prog env st := by
  cases fuel with
  | zero => rfl
  | succ f =>
      exact (evalPermEq c σ σ' hb f).2.2.2.1 prog env st none hp hst rfl

/-- Witness: the amended determinism theorem applied to the concrete pure
program `(1 + "x")[0]` from the fresh state, with the identity and the
reversing iteration orders. -/
theorem c7_determinism_amended_witness :
    ctxNone.builtins = (fun _ => false) ∧ pureSL progC1 = true ∧ pureSt stInit = true ∧
    EvalProgram { ctxNone with perm := id } 9 progC1 0 stInit
      = EvalProgram { ctxNone with perm := List.reverse } 9 progC1 0 stInit :=
  ⟨rfl, rfl, rfl,
    c7_determinism_amended ctxNone id List.reverse rfl progC1 0 stInit 9 rfl rfl⟩

end Vabna
